import Mathlib

/-!
Shallow embedding of the hacktile model core (field / tile collision and
rotation system, playground controller, tile permutator) from
src/model/tile.hpp, src/model/src/playground.cpp (tile.cpp portion),
src/model/src/generator.cpp and the tetromino rotation tables of
src/model/src/playground.cpp (tetromino.cpp portion).

Machine integers are modelled as Nat/Int with explicit wrap-around applied
exactly where the C++ performs a narrowing store or an overflowing 64-bit
shift.  Fallible operations (C++ exceptions) are modelled with Except.
-/

namespace Hacktile

/-- Wrap-around of unsigned 64-bit arithmetic (uint64_t). -/
def u64 (n : Nat) : Nat := n % 2 ^ 64

/-- Narrowing store into a signed 8-bit integer (int8_t). -/
def i8 (v : Int) : Int := (v + 128) % 256 - 128

/-- Narrowing conversion of an int expression into uint8_t. -/
def u8 (v : Int) : Nat := (v % 256).toNat

/-- Signed value of the low nibble of a tileCoord byte (int8_t x : 4). -/
def nibLo (v : Nat) : Int :=
  if v % 16 < 8 then ((v % 16 : Nat) : Int) else ((v % 16 : Nat) : Int) - 16

/-- Signed value of the high nibble of a tileCoord byte (int8_t y : 4). -/
def nibHi (v : Nat) : Int :=
  if v / 16 % 16 < 8 then ((v / 16 % 16 : Nat) : Int) else ((v / 16 % 16 : Nat) : Int) - 16

/-- tileCoordAt packs (x, y) into one byte: x in the low nibble, y in the
high nibble, each stored as a 4-bit two's-complement field. -/
def tileCoordAt (x y : Int) : Nat := (x.emod 16).toNat + 16 * (y.emod 16).toNat

/-- Negation of a packed tileCoord byte, as done in the inverse-transform
loop of createTetrominoRotation (negate each 4-bit field). -/
def negCoord (v : Nat) : Nat := tileCoordAt (-(nibLo v)) (-(nibHi v))

/-! compactField: a 6-row by 10-column window packed into a uint64_t. -/

/-- Mask selecting the lowest 10 bits of a row. -/
def fieldMask : Nat := 2 ^ 10 - 1

/-- Mask selecting the 60 bits inside the window. -/
def fullMask : Nat := 2 ^ 60 - 1

/-- A fully occupied row (field::solidRow). -/
def solidRow : Nat := 2 ^ 10 - 1

/-- compactField::collide - bitwise intersection test. -/
def collide (a b : Nat) : Bool := a &&& b != 0

/-- compactField::tileMove - horizontal shift of a packed tile; left shift
is subject to uint64_t wrap-around. -/
def tileMove (t : Nat) (x : Int) : Nat :=
  if 0 ≤ x then u64 (t <<< x.toNat) else t >>> (-x).toNat

/-- compactField::fieldDown - push the window up by one row (the shift is a
uint64_t shift, then masked to the 60 window bits) and insert a new bottom
row. -/
def fieldDown (t row : Nat) : Nat :=
  (u64 (t <<< 10) &&& fullMask) ||| (row &&& fieldMask)

/-- compactField::fieldUp - drop the bottom row and insert a new top row. -/
def fieldUp (t row : Nat) : Nat :=
  ((t &&& fullMask) >>> 10) ||| ((row &&& fieldMask) <<< 50)

/-! Tile data model. -/

/-- tileState: orientation plus int8_t coordinates.  The direction is kept
as Fin 4 since every tileDirection reaching the field operations is masked
with 0x03 by rotateCW/rotateCCW/halfTurn. -/
structure tileState where
  dir : Fin 4
  x : Int
  y : Int
deriving DecidableEq

/-- tileDirection::rotateCW ((value + 1) & 0x03). -/
def rotateCW (d : Fin 4) : Fin 4 := d + 1

/-- tileDirection::rotateCCW ((value - 1) & 0x03). -/
def rotateCCW (d : Fin 4) : Fin 4 := d + 3

/-- tileDirection::halfTurn ((value + 2) & 0x03). -/
def halfTurn (d : Fin 4) : Fin 4 := d + 2

/-- tile: per-orientation pixel list (data byte and packed location, in the
order the constructor scans them, terminated in C++ by a zero sentinel and
modelled as a list), packed bounding box bytes, the 60-bit packed
occupancy mask, and the truncated rotation table. -/
structure tile where
  pix : List (List (Nat × Nat))
  min : List Nat
  max : List Nat
  compactTile : List Nat
  rotateTable : List (List (List Nat))
deriving DecidableEq

def tile.pixAt (t : tile) (d : Fin 4) : List (Nat × Nat) := t.pix.getD d []

def tile.minAt (t : tile) (d : Fin 4) : Nat := t.min.getD d 0

def tile.maxAt (t : tile) (d : Fin 4) : Nat := t.max.getD d 0

def tile.compactAt (t : tile) (d : Fin 4) : Nat := t.compactTile.getD d 0

def tile.kickAt (t : tile) (i j : Fin 4) : List Nat := (t.rotateTable.getD i []).getD j []

/-- tile::initTileState: initial orientation, x = 2, and y placed so that
the lowest occupied line sits at row 19. -/
def tile.initTileState (t : tile) : tileState :=
  { dir := 0, x := 2, y := 19 - nibHi (t.minAt 0) }

/-- tilePathFinder: tile pointer (Option), state, version stamp, cached
packed window and wall-kick flag. -/
structure tilePathFinder where
  typ : Option tile
  state : tileState
  version : Nat
  current : Nat
  previousWallKick : Bool
deriving DecidableEq

/-- The null tilePathFinder (default constructor). -/
def nullPathFinder : tilePathFinder :=
  { typ := none, state := { dir := 0, x := 0, y := 0 }, version := 0,
    current := 0, previousWallKick := false }

/-- tilePathFinder type-only constructor (spawning position). -/
def mkPathFinder (t : tile) : tilePathFinder :=
  { typ := some t, state := t.initTileState, version := 0, current := 0,
    previousWallKick := false }

/-- Errors corresponding to C++ exceptions thrown by field operations;
nullDeref models the undefined behaviour of dereferencing a null tile
pointer in operations that do not check it. -/
inductive fieldErr where
  | versionMismatch
  | tileNotSpecified
  | nullDeref
deriving DecidableEq

instance instDecEqExcept {ε α : Type} [DecidableEq ε] [DecidableEq α] :
    DecidableEq (Except ε α) := fun a b =>
  match a, b with
  | .ok x, .ok y =>
    if h : x = y then .isTrue (by rw [h]) else .isFalse (fun hh => h (Except.ok.inj hh))
  | .ok _, .error _ => .isFalse (fun hh => Except.noConfusion hh)
  | .error _, .ok _ => .isFalse (fun hh => Except.noConfusion hh)
  | .error x, .error y =>
    if h : x = y then .isTrue (by rw [h]) else .isFalse (fun hh => h (Except.error.inj hh))

/-- field: packed row masks, dense color rows, and the version counter
(which the constructor initializes to 1). -/
structure field where
  compactFields : List Nat
  fields : List (List Nat)
  version : Nat
deriving DecidableEq

/-- A freshly constructed field. -/
def fieldNew : field := { compactFields := [], fields := [], version := 1 }

/-- field::compactRowAt: rows below 0 are solid, rows at or above the
current height are empty. -/
def field.compactRowAt (f : field) (y : Int) : Nat :=
  if y < 0 then solidRow
  else if (f.compactFields.length : Int) ≤ y then 0
  else f.compactFields.getD y.toNat 0

/-- field::rowAt.  The C++ comparison compactFields.size() <= y converts
the int y to size_t, so a negative y becomes a huge unsigned value; that
conversion is modelled by reducing y modulo 2^64. -/
def field.rowAt (f : field) (y : Int) (solidCell : Nat) : List Nat :=
  if (f.compactFields.length : Int) ≤ ((y % (2 ^ 64)).toNat : Int) then
    List.replicate 10 0
  else if y < 0 then List.replicate 10 solidCell
  else f.fields.getD y.toNat (List.replicate 10 0)

/-- field::assertLegit throw condition: nonzero version stamp differing
from the field version. -/
def field.assertLegitFails (f : field) (pfd : tilePathFinder) : Bool :=
  pfd.version != 0 && pfd.version != f.version

/-- field::isValid: bounding-box checks followed by the packed collision
test of the x-shifted tile against the cached window. -/
def isValidB (t : tile) (st : tileState) (cur : Nat) : Bool :=
  if st.x + nibLo (t.minAt st.dir) < 0 then false
  else if 10 ≤ st.x + nibLo (t.maxAt st.dir) then false
  else if st.y + nibHi (t.maxAt st.dir) < 0 then false
  else !(collide cur (tileMove (t.compactAt st.dir) st.x))

/-- The 6-row window the spawn loop builds by folding fieldDown over
compactRowAt from the top row down (i = 6 .. 1). -/
def buildWindow (f : field) (y : Int) : Nat :=
  List.foldl (fun c i => fieldDown c (f.compactRowAt (y + i - 1))) 0 [6, 5, 4, 3, 2, 1]

/-- field::spawn: null tile throws; otherwise build the window at the
initial location, validate, and stamp the version on success.  The in-out
path finder keeps its tile, state and freshly built window on failure. -/
def field.spawn (f : field) (pfd : tilePathFinder) : Except fieldErr (Bool × tilePathFinder) :=
  match pfd.typ with
  | none => .error .tileNotSpecified
  | some t =>
    let pfd1 := { pfd with current := buildWindow f pfd.state.y }
    if isValidB t pfd1.state pfd1.current then
      .ok (true, { pfd1 with version := f.version })
    else .ok (false, pfd1)

/-- The rightward walk of field::move: the fuel is the remaining numSteps;
x and the shifted tile advance together, stopping at the wall or backing
off one column at the first collision (int8_t increments wrap via i8). -/
def moveRight (cur : Nat) (maxx : Int) : Int → Nat → Nat → Int
  | x, _, 0 => x
  | x, tl, s + 1 =>
    if x + maxx < 9 then
      let x' := i8 (x + 1)
      let tl' := tileMove tl 1
      if collide cur tl' then i8 (x' - 1)
      else moveRight cur maxx x' tl' s
    else x

/-- The leftward walk of field::move. -/
def moveLeft (cur : Nat) (minx : Int) : Int → Nat → Nat → Int
  | x, _, 0 => x
  | x, tl, s + 1 =>
    if 0 < x + minx then
      let x' := i8 (x - 1)
      let tl' := tileMove tl (-1)
      if collide cur tl' then i8 (x' + 1)
      else moveLeft cur minx x' tl' s
    else x

/-- field::move: version check, one-column-at-a-time walk, false when no
net column was covered; a successful result keeps the caller's window and
is stamped with the field version. -/
def field.move (f : field) (pfd : tilePathFinder) (numSteps : Int) :
    Except fieldErr (Bool × tilePathFinder) :=
  if f.assertLegitFails pfd then .error .versionMismatch
  else match pfd.typ with
  | none => .error .nullDeref
  | some t =>
    let st := pfd.state
    let tl := tileMove (t.compactAt st.dir) st.x
    let x' :=
      if 0 < numSteps then moveRight pfd.current (nibLo (t.maxAt st.dir)) st.x tl numSteps.toNat
      else if numSteps < 0 then moveLeft pfd.current (nibLo (t.minAt st.dir)) st.x tl (-numSteps).toNat
      else st.x
    if x' = st.x then .ok (false, nullPathFinder)
    else
      .ok (true, { typ := pfd.typ, state := { st with x := x' }, version := f.version,
                   current := pfd.current, previousWallKick := false })

/-- The downward walk of field::drop: each step derives the candidate
window with fieldDown and the next field row, testing the collision before
committing; returns the committed window, the committed y (int8_t
decrements wrap via i8) and the remaining steps. -/
def dropLoop (f : field) (tl : Nat) : Nat → Int → Nat → Nat × Int × Nat
  | cur, y, 0 => (cur, y, 0)
  | cur, y, s + 1 =>
    let cand := fieldDown cur (f.compactRowAt (y - 1))
    if collide cand tl then (cur, y, s + 1)
    else dropLoop f tl cand (i8 (y - 1)) s

/-- field::drop: returns false (with a null result) when no row was
covered, otherwise the committed position stamped with the field
version. -/
def field.drop (f : field) (pfd : tilePathFinder) (numSteps : Nat) :
    Except fieldErr (Bool × tilePathFinder) :=
  if f.assertLegitFails pfd then .error .versionMismatch
  else match pfd.typ with
  | none => .error .nullDeref
  | some t =>
    let st := pfd.state
    let tl := tileMove (t.compactAt st.dir) st.x
    let r := dropLoop f tl pfd.current st.y numSteps
    if r.2.2 = numSteps then .ok (false, nullPathFinder)
    else
      .ok (true, { typ := pfd.typ, state := { st with y := r.2.1 }, version := f.version,
                   current := r.1, previousWallKick := false })

/-- The upward re-synthesis loop of field::rotate (while y < target):
fieldUp pulls in the row 6 above the current window base. -/
def shiftUpGo (f : field) (target : Int) : Nat → Int → Nat → Nat × Int
  | cur, y, 0 => (cur, y)
  | cur, y, s + 1 =>
    if y < target then shiftUpGo f target (fieldUp cur (f.compactRowAt (y + 6))) (i8 (y + 1)) s
    else (cur, y)

/-- The downward re-synthesis loop of field::rotate (while y > target). -/
def shiftDownGo (f : field) (target : Int) : Nat → Int → Nat → Nat × Int
  | cur, y, 0 => (cur, y)
  | cur, y, s + 1 =>
    if target < y then shiftDownGo f target (fieldDown cur (f.compactRowAt (y - 1))) (i8 (y - 1)) s
    else (cur, y)

/-- Both re-synthesis loops of field::rotate in sequence, with fuel that
covers the whole distance when no int8_t wrap occurs. -/
def rotShift (f : field) (cur : Nat) (y target : Int) : Nat × Int :=
  let r := shiftUpGo f target cur y (target - y).toNat
  shiftDownGo f target r.1 r.2 (r.2 - target).toNat

/-- The wall-kick walk of field::rotate over the (source, target) kick
entry list: the candidate state keeps the x computed from the original
state and the window re-synthesized from the previous candidate; the
first valid candidate wins and is flagged as a wall kick. -/
def rotKickLoop (f : field) (t : tile) (st : tileState) (targetDir : Fin 4) :
    List Nat → tilePathFinder → Except fieldErr (Bool × tilePathFinder)
  | [], _ => .ok (false, nullPathFinder)
  | v :: rest, r =>
    if v = 0 then .ok (false, nullPathFinder)
    else
      let newX := i8 (st.x + nibLo v)
      let newY := i8 (st.y + nibHi v)
      let s := rotShift f r.current r.state.y newY
      let r' : tilePathFinder :=
        { typ := r.typ, state := { dir := targetDir, x := newX, y := s.2 },
          version := r.version, current := s.1, previousWallKick := r.previousWallKick }
      if isValidB t r'.state r'.current then
        .ok (true, { r' with previousWallKick := true, version := f.version })
      else rotKickLoop f t st targetDir rest r'

/-- field::rotate: try the target orientation at the unchanged position
first (no kick, flag unset), then walk the kick table in order; false with
a null result when nothing validates. -/
def field.rotate (f : field) (pfd : tilePathFinder) (targetDir : Fin 4) :
    Except fieldErr (Bool × tilePathFinder) :=
  if f.assertLegitFails pfd then .error .versionMismatch
  else match pfd.typ with
  | none => .error .nullDeref
  | some t =>
    let st := pfd.state
    let r0 : tilePathFinder :=
      { typ := pfd.typ, state := { st with dir := targetDir }, version := 0,
        current := pfd.current, previousWallKick := false }
    if isValidB t r0.state r0.current then .ok (true, { r0 with version := f.version })
    else rotKickLoop f t st targetDir (t.kickAt st.dir targetDir) r0

/-- The pixel placement loop of field::lock: writes each pixel's data byte
into the dense row and sets the packed occupancy bit (coordinates narrow
through uint8_t). -/
def placePixels (stx sty : Int) : List (Nat × Nat) → List Nat × List (List Nat) →
    List Nat × List (List Nat)
  | [], acc => acc
  | (dv, lv) :: rest, (cf, fr) =>
    if dv = 0 then (cf, fr)
    else
      let x := u8 (stx + nibLo lv)
      let y := u8 (sty + nibHi lv)
      let fr' := fr.set y ((fr.getD y (List.replicate 10 0)).set x dv)
      let cf' := cf.set y ((cf.getD y 0) ||| (1 <<< x))
      placePixels stx sty rest (cf', fr')

/-- The row-erase loop of field::lock: j walks the bounding-box rows, the
row index is adjusted by the rows already removed in this call (narrowed
through uint8_t) and full rows are erased. -/
def eraseLoop (base : Int) : List Nat → List (List Nat) → Nat → Nat → Nat →
    List Nat × List (List Nat) × Nat
  | cf, fr, _, clear, 0 => (cf, fr, clear)
  | cf, fr, j, clear, s + 1 =>
    let row := u8 (base + j - clear)
    if cf.getD row 0 = solidRow then
      eraseLoop base (cf.eraseIdx row) (fr.eraseIdx row) (j + 1) (clear + 1) s
    else eraseLoop base cf fr (j + 1) clear s

/-- The number of empty rows the growth loop of field::lock appends (the
while loop pushes empty rows until the size exceeds y + max.y; this
closed form is its effect since the guard converts y + max.y to size_t
only after isValid has ensured it is nonnegative). -/
def grownRows (f : field) (t : tile) (st : tileState) : Nat :=
  (st.y + nibHi (t.maxAt st.dir) + 1 - f.fields.length).toNat

/-- The grown-and-pixel-written row lists of field::lock. -/
def lockPlaced (f : field) (t : tile) (st : tileState) : List Nat × List (List Nat) :=
  placePixels st.x st.y (t.pixAt st.dir)
    (f.compactFields ++ List.replicate (grownRows f t st) 0,
     f.fields ++ List.replicate (grownRows f t st) (List.replicate 10 0))

/-- The erase loop of field::lock applied over the written rows. -/
def lockErased (f : field) (t : tile) (st : tileState) : List Nat × List (List Nat) × Nat :=
  eraseLoop st.y (lockPlaced f t st).1 (lockPlaced f t st).2
    (u8 (nibHi (t.minAt st.dir))) 0
    (nibHi (t.maxAt st.dir) + 1 - u8 (nibHi (t.minAt st.dir))).toNat

/-- The mutation step of field::lock once the precondition holds: grow,
place pixels, erase full bounding-box rows and bump the version; returns
the new field and the clear count. -/
def lockApply (f : field) (t : tile) (st : tileState) : field × Nat :=
  ({ compactFields := (lockErased f t st).1, fields := (lockErased f t st).2.1,
     version := f.version + 1 }, (lockErased f t st).2.2)

/-- field::lock: precondition check (valid and a 1-row drop fails), then
the lockApply mutation. -/
def field.lock (f : field) (pfd : tilePathFinder) : Except fieldErr (Bool × field × Nat) :=
  if f.assertLegitFails pfd then .error .versionMismatch
  else match pfd.typ with
  | none => .error .nullDeref
  | some t =>
    if !(isValidB t pfd.state pfd.current) then .ok (false, f, 0)
    else match field.drop f pfd 1 with
    | .error e => .error e
    | .ok (true, _) => .ok (false, f, 0)
    | .ok (false, _) => .ok (true, (lockApply f t pfd.state).1, (lockApply f t pfd.state).2)

/-- field::grow: insert a row at the bottom and bump the version. -/
def field.grow (f : field) (row : List Nat) : field :=
  let compactLine :=
    (List.range 10).foldl (fun acc i => acc ||| (if row.getD i 0 ≠ 0 then 1 <<< i else 0)) 0
  { compactFields := compactLine :: f.compactFields, fields := row :: f.fields,
    version := f.version + 1 }

/-! Playground controller.  The event listeners are external consumers and
carry no model state; dispatch is therefore a no-op here (the model covers
runs without re-entrant listeners).  The tile generator is modelled as the
stream of tiles it would produce, with a cursor tracking how many have
been consumed. -/

/-- playgroundState enumeration. -/
inductive playgroundState where
  | notStarted
  | inGame
  | topOut
  | exhausted
  | completed
deriving DecidableEq

/-- playground: field, generator stream with cursor, hold slot, swap flag,
current and shadow path finders, preview ring and game state. -/
structure playground where
  f : field
  generator : Nat → Option tile
  genCursor : Nat
  swap : Option tile
  swapEnabled : Bool
  current : tilePathFinder
  shadow : tilePathFinder
  numPreviews : Nat
  preview : List (Option tile)
  previewCursor : Nat
  state : playgroundState

/-- playground constructor: fill the preview ring from the generator. -/
def mkPlayground (g : Nat → Option tile) (numPreviews : Nat) : playground :=
  { f := fieldNew, generator := g, genCursor := numPreviews, swap := none,
    swapEnabled := true, current := nullPathFinder, shadow := nullPathFinder,
    numPreviews := numPreviews, preview := (List.range numPreviews).map g,
    previewCursor := 0, state := .notStarted }

/-- playground::spawnTile: attempt the field spawn; on failure restore the
current path finder to the bare type and top out (the spawn and gameEnd
events are dispatched to listeners); on success compute the shadow by
dropping 20 rows. -/
def playground.spawnTile (p : playground) (typ : tile) : Except fieldErr playground :=
  let current0 := mkPathFinder typ
  let shadow0 := mkPathFinder typ
  match p.f.spawn current0 with
  | .error e => .error e
  | .ok (false, _) =>
    .ok { p with current := mkPathFinder typ, shadow := shadow0, state := .topOut }
  | .ok (true, current1) =>
    match p.f.drop current1 20 with
    | .error e => .error e
    | .ok (true, newShadow) => .ok { p with current := current1, shadow := newShadow }
    | .ok (false, _) => .ok { p with current := current1, shadow := shadow0 }

/-- playground::spawnNextTile: pop the preview head; a null head ends the
game as exhausted; otherwise refill the vacated slot (only when the
previous slot holds a tile) and spawn the popped tile. -/
def playground.spawnNextTile (p : playground) : Except fieldErr playground :=
  match p.preview.getD p.previewCursor none with
  | none =>
    .ok { p with current := nullPathFinder, shadow := nullPathFinder, state := .exhausted }
  | some currentType =>
    let previous :=
      if p.previewCursor = 0 then p.preview.getD (p.numPreviews - 1) none
      else p.preview.getD (p.previewCursor - 1) none
    let next := if previous.isSome then p.generator p.genCursor else none
    let genCursor' := if previous.isSome then p.genCursor + 1 else p.genCursor
    let preview' := p.preview.set p.previewCursor next
    let cursor' := if p.numPreviews ≤ p.previewCursor + 1 then 0 else p.previewCursor + 1
    playground.spawnTile
      { p with preview := preview', previewCursor := cursor', genCursor := genCursor' }
      currentType

/-- playground::start. -/
def playground.start (p : playground) : Except fieldErr playground :=
  if p.state ≠ .notStarted then .ok p
  else playground.spawnNextTile { p with state := .inGame }

/-- playground::complete. -/
def playground.complete (p : playground) : playground :=
  if p.state ≠ .inGame then p else { p with state := .completed }

/-- playground::tileMove: install the new path finder and recompute the
shadow by dropping 20 rows (falling back to the new position itself). -/
def playground.tileMove (p : playground) (pfd : tilePathFinder) : Except fieldErr playground :=
  match p.f.drop pfd 20 with
  | .error e => .error e
  | .ok (true, newShadow) => .ok { p with current := pfd, shadow := newShadow }
  | .ok (false, _) => .ok { p with current := pfd, shadow := pfd }

/-- playground::move. -/
def playground.move (p : playground) (movement : Int) : Except fieldErr (Bool × playground) :=
  if p.state ≠ .inGame then .ok (false, p)
  else match p.f.move p.current movement with
  | .error e => .error e
  | .ok (false, _) => .ok (false, p)
  | .ok (true, pfd) => (p.tileMove pfd).map (fun q => (true, q))

/-- playground::drop (manual soft drop). -/
def playground.drop (p : playground) (movement : Nat) : Except fieldErr (Bool × playground) :=
  if p.state ≠ .inGame then .ok (false, p)
  else match p.f.drop p.current movement with
  | .error e => .error e
  | .ok (false, _) => .ok (false, p)
  | .ok (true, pfd) => (p.tileMove pfd).map (fun q => (true, q))

/-- playground::rotate (private helper shared by the rotation entries). -/
def playground.rotate (p : playground) (newDir : Fin 4) : Except fieldErr (Bool × playground) :=
  if p.state ≠ .inGame then .ok (false, p)
  else match p.f.rotate p.current newDir with
  | .error e => .error e
  | .ok (false, _) => .ok (false, p)
  | .ok (true, pfd) => (p.tileMove pfd).map (fun q => (true, q))

/-- playground::rotateCW. -/
def playground.rotateCW (p : playground) : Except fieldErr (Bool × playground) :=
  if p.state ≠ .inGame then .ok (false, p) else p.rotate (Hacktile.rotateCW p.current.state.dir)

/-- playground::rotateCCW. -/
def playground.rotateCCW (p : playground) : Except fieldErr (Bool × playground) :=
  if p.state ≠ .inGame then .ok (false, p) else p.rotate (Hacktile.rotateCCW p.current.state.dir)

/-- playground::halfTurn. -/
def playground.halfTurn (p : playground) : Except fieldErr (Bool × playground) :=
  if p.state ≠ .inGame then .ok (false, p) else p.rotate (Hacktile.halfTurn p.current.state.dir)

/-- playground::hardDrop: drop 20, dispatch the before-lock event, lock,
clear current and shadow, re-enable swap and spawn the next tile while
still in game.  The event-only dereference of the current tile type is
modelled by the null check. -/
def playground.hardDrop (p : playground) : Except fieldErr (Bool × playground) :=
  if p.state ≠ .inGame then .ok (false, p)
  else match p.drop 20 with
  | .error e => .error e
  | .ok (_, p1) =>
    match p1.current.typ with
    | none => .error .nullDeref
    | some _ =>
      match p1.f.lock p1.current with
      | .error e => .error e
      | .ok (_, f', _) =>
        let p2 := { p1 with
          f := f', current := nullPathFinder, shadow := nullPathFinder,
          swapEnabled := true }
        if p2.state = .inGame then (p2.spawnNextTile).map (fun q => (true, q))
        else .ok (true, p2)

/-- playground::swapTile: move the current piece into the hold slot, set
the swap flag from whether the hold slot was empty, and spawn either the
next queued tile (empty hold) or the previously held tile. -/
def playground.swapTile (p : playground) : Except fieldErr (Bool × playground) :=
  if p.state ≠ .inGame then .ok (false, p)
  else if !p.swapEnabled then .ok (false, p)
  else
    match p.current.typ with
    | none => .error .nullDeref
    | some t =>
      let previous := p.swap
      let p1 := { p with
        current := nullPathFinder, shadow := nullPathFinder,
        swap := some t, swapEnabled := previous.isNone }
      match previous with
      | none => (p1.spawnNextTile).map (fun q => (true, q))
      | some prev => (p1.spawnTile prev).map (fun q => (true, q))

/-- Operations a driver can issue against a playground. -/
inductive pgOp where
  | start
  | complete
  | move (movement : Int)
  | drop (movement : Nat)
  | rotCW
  | rotCCW
  | turn
  | hardDrop
  | swapTile

/-- One driver step. -/
def pgStep (p : playground) : pgOp → Except fieldErr playground
  | .start => p.start
  | .complete => .ok p.complete
  | .move n => (p.move n).map (·.2)
  | .drop n => (p.drop n).map (·.2)
  | .rotCW => p.rotateCW.map (·.2)
  | .rotCCW => p.rotateCCW.map (·.2)
  | .turn => p.halfTurn.map (·.2)
  | .hardDrop => p.hardDrop.map (·.2)
  | .swapTile => p.swapTile.map (·.2)

/-- A driver run: a sequence of operations from an initial playground. -/
def runOps (p : playground) : List pgOp → Except fieldErr playground
  | [] => .ok p
  | op :: rest => (pgStep p op).bind (fun q => runOps q rest)

/-! Tile permutator (bag generator).  The std::mt19937-driven std::shuffle
is external library code; it is abstracted as a shuffler oracle whose
documented contract (it permutes the series) is a hypothesis of the
theorems that need it. -/

/-- Abstraction of the seeded randomizer plus std::shuffle. -/
structure shuffler (α σ : Type) where
  shuffle : σ → List α → List α × σ

/-- tilePermutator state: the series, its size, the read pointer and the
randomizer state (workData). -/
structure tilePermutator (α σ : Type) where
  series : List α
  numTiles : Nat
  pointer : Nat
  workData : σ

/-- tilePermutator::permutate: shuffle the series in place. -/
def tilePermutator.permutate (O : shuffler α σ) (p : tilePermutator α σ) :
    tilePermutator α σ :=
  let s := O.shuffle p.workData p.series
  { p with series := s.1, workData := s.2 }

/-- tilePermutator constructor: copy the tiles, seed the randomizer and
shuffle once. -/
def mkPermutator (O : shuffler α σ) (tiles : List α) (seed : σ) : tilePermutator α σ :=
  tilePermutator.permutate O
    { series := tiles, numTiles := tiles.length, pointer := 0, workData := seed }

/-- tilePermutator::generate: return the tile under the pointer, advance,
and reshuffle when a full pass completes. -/
def tilePermutator.generate [Inhabited α] (O : shuffler α σ) (p : tilePermutator α σ) :
    α × tilePermutator α σ :=
  let result := p.series.getD p.pointer default
  let ptr := p.pointer + 1
  if p.numTiles ≤ ptr then (result, tilePermutator.permutate O { p with pointer := 0 })
  else (result, { p with pointer := ptr })

/-- The list of the first n generated tiles together with the state after
generating them. -/
def drawN [Inhabited α] (O : shuffler α σ) (p : tilePermutator α σ) :
    Nat → List α × tilePermutator α σ
  | 0 => ([], p)
  | n + 1 =>
    let a := p.generate O
    let rest := drawN O a.2 n
    (a.1 :: rest.1, rest.2)

/-- The infinite output stream of a permutator. -/
def permStream [Inhabited α] (O : shuffler α σ) (p : tilePermutator α σ) (n : Nat) : α :=
  ((drawN O p n).2.generate O).1

/-! createTetrominoRotation (tetromino.cpp).  The result buffer is a raw
uint8_t[4][4][12] array; the function zeroes entry [i][j][0] of every pair
and then performs the writes below, so the model starts from an all-zero
table (bytes the function never writes are modelled as zero). -/

/-- tetromino enumeration. -/
inductive tetromino where
  | J | L | S | Z | T | I | O
deriving DecidableEq

/-- A rotation table buffer, modelled as a write log over the all-zero
initial buffer: the most recent write to a cell wins.  tread looks a cell
up, tupd records a write. -/
def rotTable : Type := List ((Nat × Nat × Nat) × Nat)

/-- Read entry (i, j, k) of a rotation table buffer. -/
def tread (t : rotTable) (i j k : Nat) : Nat :=
  ((t.find? (fun e => e.1 = (i, j, k))).map (fun e => e.2)).getD 0

/-- Single-entry write into a rotation table buffer. -/
def tupd (t : rotTable) (i j k v : Nat) : rotTable := ((i, j, k), v) :: t

/-- Apply a list of writes (i, j, k, value) in order. -/
def applyWrites (t : rotTable) (ws : List (Nat × Nat × Nat × Nat)) : rotTable :=
  ws.foldl (fun acc w => tupd acc w.1 w.2.1 w.2.2.1 w.2.2.2) t

/-- The forward (monotonic right rotation) writes of
createTetrominoRotation, in source order. -/
def forwardWrites : tetromino → List (Nat × Nat × Nat × Nat)
  | .J | .L | .S | .Z | .T =>
    [(0, 1, 0, tileCoordAt (-1) 0), (0, 1, 1, tileCoordAt (-1) 1),
     (0, 1, 2, tileCoordAt 0 (-2)), (0, 1, 3, tileCoordAt (-1) (-2)), (0, 1, 4, 0),
     (1, 2, 0, tileCoordAt 1 0), (1, 2, 1, tileCoordAt 1 (-1)),
     (1, 2, 2, tileCoordAt 0 2), (1, 2, 3, tileCoordAt 1 2), (1, 2, 4, 0),
     (2, 3, 0, tileCoordAt 1 0), (2, 3, 1, tileCoordAt 1 1),
     (2, 3, 2, tileCoordAt 0 (-2)), (2, 3, 3, tileCoordAt 1 (-2)), (2, 3, 4, 0),
     (3, 0, 0, tileCoordAt (-1) 0), (3, 0, 1, tileCoordAt (-1) (-1)),
     (3, 0, 2, tileCoordAt 0 2), (3, 0, 3, tileCoordAt (-1) 2), (3, 0, 4, 0)]
  | .I =>
    [(0, 1, 0, tileCoordAt (-2) 0), (0, 1, 1, tileCoordAt 1 0),
     (0, 1, 2, tileCoordAt (-2) (-1)), (0, 1, 3, tileCoordAt 1 2), (0, 1, 4, 0),
     (1, 2, 1, tileCoordAt (-1) 0), (1, 2, 0, tileCoordAt 2 0),
     (1, 2, 2, tileCoordAt (-1) 2), (1, 2, 3, tileCoordAt 2 (-1)), (1, 2, 4, 0),
     (2, 3, 0, tileCoordAt 2 0), (2, 3, 1, tileCoordAt (-1) 0),
     (2, 3, 2, tileCoordAt 2 1), (2, 3, 3, tileCoordAt (-1) (-2)), (2, 3, 4, 0),
     (3, 0, 1, tileCoordAt 1 0), (3, 0, 0, tileCoordAt (-2) 0),
     (3, 0, 2, tileCoordAt 1 (-2)), (3, 0, 3, tileCoordAt (-2) 1), (3, 0, 4, 0)]
  | .O => []

/-- The inner k-loop of the inverse transform: read result[i][j][k], stop
at the zero sentinel, otherwise write the negated coordinate into
result[j][i][k]. -/
def invEntries (i j : Nat) : rotTable → List Nat → rotTable
  | t, [] => t
  | t, k :: ks =>
    let v := tread t i j k
    if v = 0 then t
    else invEntries i j (tupd t j i k (negCoord v)) ks

/-- The full inverse transform: all (i, j) pairs in loop order, k < 5. -/
def invAll (t : rotTable) : rotTable :=
  (List.range 4).foldl
    (fun acc i => (List.range 4).foldl (fun acc2 j => invEntries i j acc2 [0, 1, 2, 3, 4]) acc)
    t

/-- createTetrominoRotation: forward writes then the inverse transform. -/
def createTetrominoRotation (typ : tetromino) : rotTable :=
  invAll (applyWrites [] (forwardWrites typ))

/-- The number of populated entries of a (source, dest) pair: the entries
before the first zero sentinel, as read by consumers of the table. -/
def entryCount (t : rotTable) (i j : Nat) : Nat :=
  (((List.range 12).map (tread t i j)).takeWhile (fun v => v != 0)).length

/-! Specification-side definitions used to state the claims. -/

/-- The true 6-row packed window of a field at base row y: row y + r sits
at bits 10r .. 10r+9. -/
def windowAt (f : field) (y : Int) : Nat :=
  (f.compactRowAt y &&& fieldMask)
  ||| ((f.compactRowAt (y + 1) &&& fieldMask) <<< 10)
  ||| ((f.compactRowAt (y + 2) &&& fieldMask) <<< 20)
  ||| ((f.compactRowAt (y + 3) &&& fieldMask) <<< 30)
  ||| ((f.compactRowAt (y + 4) &&& fieldMask) <<< 40)
  ||| ((f.compactRowAt (y + 5) &&& fieldMask) <<< 50)

/-- Coordinates within the int8_t range (every tileState produced by the
C++ code satisfies this since x and y are int8_t fields). -/
def stateOk (st : tileState) : Prop :=
  -128 ≤ st.x ∧ st.x ≤ 127 ∧ -128 ≤ st.y ∧ st.y ≤ 127

/-- A path finder of type t that is valid against the field: its cached
window is the field's true window at its position, and the shared validity
primitive (bounding box in bounds, packed masks disjoint) accepts it. -/
def pfdGood (f : field) (t : tile) (pfd : tilePathFinder) : Prop :=
  pfd.typ = some t ∧ pfd.current = windowAt f pfd.state.y ∧
  isValidB t pfd.state pfd.current = true

/-- Structural well-formedness of one tile orientation: the bounding box
is ordered and nonnegative, the packed mask fits in the 60 window bits
with every set bit inside the bounding box, and the bottom bounding-box
row holds at least one pixel.  The tile constructor establishes all of
this for every tile it builds. -/
def tileWF (t : tile) : Prop := ∀ d : Fin 4,
  0 ≤ nibLo (t.minAt d) ∧ nibLo (t.minAt d) ≤ nibLo (t.maxAt d) ∧
  0 ≤ nibHi (t.minAt d) ∧ nibHi (t.minAt d) ≤ nibHi (t.maxAt d) ∧
  t.compactAt d < 2 ^ 60 ∧
  (∀ i < 60, (t.compactAt d).testBit i = true →
    nibHi (t.minAt d) ≤ ((i / 10 : Nat) : Int) ∧ ((i / 10 : Nat) : Int) ≤ nibHi (t.maxAt d) ∧
    nibLo (t.minAt d) ≤ ((i % 10 : Nat) : Int) ∧ ((i % 10 : Nat) : Int) ≤ nibLo (t.maxAt d)) ∧
  (∃ c < 10, (t.compactAt d).testBit ((nibHi (t.minAt d)).toNat * 10 + c) = true)

/-- One wall-kick candidate as the specification describes it: the kick
offset applied to the source position (int8_t coordinates), the window
taken at the kicked row, the wall-kick flag set. -/
def kickCandidate (f : field) (t : tile) (st : tileState) (targetDir : Fin 4) (v : Nat) :
    tilePathFinder :=
  { typ := some t,
    state := { dir := targetDir, x := i8 (st.x + nibLo v), y := i8 (st.y + nibHi v) },
    version := f.version, current := windowAt f (i8 (st.y + nibHi v)),
    previousWallKick := true }

/-- First valid kick candidate in table order (zero terminates the
table). -/
def firstKick (f : field) (t : tile) (st : tileState) (targetDir : Fin 4) :
    List Nat → Bool × tilePathFinder
  | [] => (false, nullPathFinder)
  | v :: rest =>
    if v = 0 then (false, nullPathFinder)
    else
      let c := kickCandidate f t st targetDir v
      if isValidB t c.state c.current then (true, c)
      else firstKick f t st targetDir rest

/-- The rotation result as the specification describes it: the target
orientation at the unchanged position first (flag unset), otherwise the
first valid kick in table order (flag set), otherwise failure. -/
def rotateSpecFn (f : field) (t : tile) (st : tileState) (targetDir : Fin 4) :
    Bool × tilePathFinder :=
  let base : tilePathFinder :=
    { typ := some t, state := { st with dir := targetDir }, version := f.version,
      current := windowAt f st.y, previousWallKick := false }
  if isValidB t base.state base.current then (true, base)
  else firstKick f t st targetDir (t.kickAt st.dir targetDir)

/-! Concrete configuration data used by the witnesses: a one-pixel tile
(tile geometry is external configuration data for this core) and small
fields. -/

/-- A tile with a single pixel at frame cell (2, 2) in every orientation,
with one two-entry kick list for the rotation from orientation 0 to 1. -/
def tileOne : tile :=
  { pix := [[(5, tileCoordAt 2 2)], [(5, tileCoordAt 2 2)],
            [(5, tileCoordAt 2 2)], [(5, tileCoordAt 2 2)]],
    min := [tileCoordAt 2 2, tileCoordAt 2 2, tileCoordAt 2 2, tileCoordAt 2 2],
    max := [tileCoordAt 2 2, tileCoordAt 2 2, tileCoordAt 2 2, tileCoordAt 2 2],
    compactTile := [1 <<< 22, 1 <<< 22, 1 <<< 22, 1 <<< 22],
    rotateTable :=
      [[[], [tileCoordAt (-1) 0, tileCoordAt 0 1], [], []],
       [[], [], [], []], [[], [], [], []], [[], [], [], []]] }

/-- The path finder produced by spawning tileOne into an empty field. -/
def spawnedOne : tilePathFinder :=
  { typ := some tileOne, state := { dir := 0, x := 2, y := 17 }, version := 1,
    current := 0, previousWallKick := false }

/-- tileOne resting on the floor of an empty field (one-row drop fails). -/
def restingOne : tilePathFinder :=
  { typ := some tileOne, state := { dir := 0, x := 2, y := -2 }, version := 0,
    current := windowAt fieldNew (-2), previousWallKick := false }

/-- A field whose row 19 is fully occupied, blocking tileOne's spawn cell
(row 19, column 4). -/
def blockedField : field :=
  { compactFields := List.replicate 19 0 ++ [solidRow],
    fields := List.replicate 19 (List.replicate 10 0) ++ [List.replicate 10 5],
    version := 1 }

/-- A playground in game over a constant generator, holding tileOne as
the current piece with an empty hold slot. -/
def pgOne : playground :=
  { f := fieldNew, generator := fun _ => some tileOne, genCursor := 1, swap := none,
    swapEnabled := true, current := spawnedOne,
    shadow := { spawnedOne with state := { dir := 0, x := 2, y := -2 } },
    numPreviews := 1, preview := [some tileOne], previewCursor := 0, state := .inGame }

/-- The identity shuffler: keeps the series as is (trivially a
permutation). -/
def idShuffler (α : Type) : shuffler α Unit := { shuffle := fun s l => (l, s) }

/-- The running invariant of a tilePermutator over working set ws: the
stored size matches, the read pointer is in range, and the series is a
permutation of the working set. -/
@[reducible] def permInvP {α σ : Type} (ws : List α) (p : tilePermutator α σ) : Prop :=
  p.numTiles = ws.length ∧ p.pointer < p.numTiles ∧ p.series.Perm ws

/-- A permutator at a reshuffle boundary: the pointer is at the start of
a fresh pass. -/
@[reducible] def permBoundary {α σ : Type} (tiles : List α) (p : tilePermutator α σ) : Prop :=
  p.numTiles = tiles.length ∧ p.pointer = 0 ∧ p.series.Perm tiles

/-- The playground liveness invariant: the generator always yields a
tile, every preview slot holds a tile, the preview ring geometry is
consistent, and the game is not exhausted. -/
@[reducible] def pgAlive (p : playground) : Prop :=
  (∀ n, (p.generator n).isSome = true) ∧ (∀ o ∈ p.preview, o.isSome = true) ∧
  p.preview.length = p.numPreviews ∧ p.previewCursor < p.numPreviews ∧
  p.state ≠ .exhausted

instance (f : field) (t : tile) (p : tilePathFinder) : Decidable (pfdGood f t p) := by
  unfold pfdGood; infer_instance

instance (t : tile) : Decidable (tileWF t) := by
  unfold tileWF; infer_instance

instance (st : tileState) : Decidable (stateOk st) := by
  unfold stateOk; infer_instance

/-! Helper lemmas. -/

theorem i8_eq_self {v : Int} (h1 : -128 ≤ v) (h2 : v ≤ 127) : i8 v = v := by
  unfold i8; omega

theorem i8_range (v : Int) : -128 ≤ i8 v ∧ i8 v ≤ 127 := by
  unfold i8; omega

theorem u8_eq_self {v : Int} (h1 : 0 ≤ v) (h2 : v < 256) : (u8 v : Int) = v := by
  unfold u8; omega

theorem nibLo_range (v : Nat) : -8 ≤ nibLo v ∧ nibLo v < 8 := by
  unfold nibLo; split <;> omega

theorem nibHi_range (v : Nat) : -8 ≤ nibHi v ∧ nibHi v < 8 := by
  unfold nibHi; split <;> omega

theorem collide_eq_false_iff {a b : Nat} : collide a b = false ↔ a &&& b = 0 := by
  unfold collide; simp

/-- Unfolded form of the shared validity primitive. -/
theorem isValidB_eq_true_iff {t : tile} {st : tileState} {cur : Nat} :
    isValidB t st cur = true ↔
      0 ≤ st.x + nibLo (t.minAt st.dir) ∧ st.x + nibLo (t.maxAt st.dir) < 10 ∧
      0 ≤ st.y + nibHi (t.maxAt st.dir) ∧
      collide cur (tileMove (t.compactAt st.dir) st.x) = false := by
  unfold isValidB
  split
  · constructor
    · intro h; cases h
    · intro h; omega
  · split
    · constructor
      · intro h; cases h
      · intro h; omega
    · split
      · constructor
        · intro h; cases h
        · intro h; omega
      · simp only [Bool.not_eq_true']
        constructor
        · intro h; refine ⟨by omega, by omega, by omega, h⟩
        · intro h; exact h.2.2.2

theorem testBit_fieldMask (i : Nat) : fieldMask.testBit i = decide (i < 10) :=
  Nat.testBit_two_pow_sub_one ..

theorem testBit_fullMask (i : Nat) : fullMask.testBit i = decide (i < 60) :=
  Nat.testBit_two_pow_sub_one ..

theorem testBit_solidRow (i : Nat) : solidRow.testBit i = decide (i < 10) :=
  Nat.testBit_two_pow_sub_one ..

theorem testBit_u64 (n i : Nat) : (u64 n).testBit i = (decide (i < 64) && n.testBit i) :=
  Nat.testBit_mod_two_pow ..

/-- Each masked-and-shifted row term of a window has bits only in its own
10-bit band. -/
theorem testBit_rowTerm (r k j : Nat) :
    ((r &&& fieldMask) <<< (10 * k)).testBit j =
      (decide (j / 10 = k) && r.testBit (j % 10)) := by
  rw [Nat.testBit_shiftLeft, Nat.testBit_land, testBit_fieldMask]
  rcases Nat.lt_or_ge j (10 * k) with h | h
  · have h1 : ¬ (10 * k ≤ j) := by omega
    have h2 : j / 10 ≠ k := by omega
    simp [h1, h2]
  · have h1 : 10 * k ≤ j := h
    rcases Nat.lt_or_ge j (10 * k + 10) with h3 | h3
    · have h4 : j / 10 = k := by omega
      have h5 : j - 10 * k = j % 10 := by omega
      have h6 : j % 10 < 10 := by omega
      simp [h1, h4, h5, h6]
    · have h4 : j / 10 ≠ k := by omega
      have h5 : ¬ (j - 10 * k < 10) := by omega
      simp [h1, h4, h5]

/-- Bit characterization of the true window: bit 10q + s reads row y + q. -/
theorem testBit_windowAt (f : field) (y : Int) (j : Nat) :
    (windowAt f y).testBit j =
      (decide (j < 60) && (f.compactRowAt (y + (j / 10 : Nat))).testBit (j % 10)) := by
  have h0 := testBit_rowTerm (f.compactRowAt y) 0 j
  have h1 := testBit_rowTerm (f.compactRowAt (y + 1)) 1 j
  have h2 := testBit_rowTerm (f.compactRowAt (y + 2)) 2 j
  have h3 := testBit_rowTerm (f.compactRowAt (y + 3)) 3 j
  have h4 := testBit_rowTerm (f.compactRowAt (y + 4)) 4 j
  have h5 := testBit_rowTerm (f.compactRowAt (y + 5)) 5 j
  unfold windowAt
  rw [Nat.testBit_lor, Nat.testBit_lor, Nat.testBit_lor, Nat.testBit_lor, Nat.testBit_lor]
  have hl : (f.compactRowAt y &&& fieldMask) = (f.compactRowAt y &&& fieldMask) <<< (10 * 0) := by
    simp
  rw [hl, h0, h1, h2, h3, h4, h5]
  rcases Nat.lt_or_ge j 60 with hj | hj
  · have hq : j / 10 = 0 ∨ j / 10 = 1 ∨ j / 10 = 2 ∨ j / 10 = 3 ∨ j / 10 = 4 ∨ j / 10 = 5 := by
      omega
    rcases hq with h | h | h | h | h | h <;> simp [h, hj]
  · have hq : j / 10 ≠ 0 ∧ j / 10 ≠ 1 ∧ j / 10 ≠ 2 ∧ j / 10 ≠ 3 ∧ j / 10 ≠ 4 ∧ j / 10 ≠ 5 := by
      omega
    simp [hq.1, hq.2.1, hq.2.2.1, hq.2.2.2.1, hq.2.2.2.2.1, hq.2.2.2.2.2, Nat.not_lt.mpr hj]

/-- fieldDown on the true window at y, fed with the row below, produces
the true window at y - 1 (the core invariant of the drop walk). -/
theorem fieldDown_windowAt (f : field) (y : Int) :
    fieldDown (windowAt f y) (f.compactRowAt (y - 1)) = windowAt f (y - 1) := by
  apply Nat.eq_of_testBit_eq
  intro j
  unfold fieldDown
  rw [Nat.testBit_lor, Nat.testBit_land, testBit_u64, Nat.testBit_shiftLeft,
    testBit_fullMask, Nat.testBit_land, testBit_fieldMask, testBit_windowAt,
    testBit_windowAt]
  rcases Nat.lt_or_ge j 10 with hj | hj
  · have h1 : ¬ (10 ≤ j) := by omega
    have h2 : j / 10 = 0 := by omega
    have h3 : j % 10 = j := by omega
    simp [h1, h2, h3, hj]
    intro
    omega
  · rcases Nat.lt_or_ge j 60 with hj2 | hj2
    · have h1 : 10 ≤ j := hj
      have h3 : (j - 10) % 10 = j % 10 := by omega
      have h4 : ¬ (j < 10) := by omega
      have h5 : j < 64 := by omega
      have h6 : (j - 10 < 60) := by omega
      simp [h1, h3, h4, h5, h6, hj2]
      have hIdx : y + ((j : Int) - 10) / 10 = y - 1 + (j : Int) / 10 := by omega
      rw [hIdx]
    · have h4 : ¬ (j < 10) := by omega
      have h8 : ¬ (j < 60) := by omega
      simp [h4, h8]

/-- fieldUp on the true window at y, fed with the row 6 above, produces
the true window at y + 1 (the invariant of the upward rotate
re-synthesis). -/
theorem fieldUp_windowAt (f : field) (y : Int) :
    fieldUp (windowAt f y) (f.compactRowAt (y + 6)) = windowAt f (y + 1) := by
  apply Nat.eq_of_testBit_eq
  intro j
  unfold fieldUp
  rw [Nat.testBit_lor, Nat.testBit_shiftRight, Nat.testBit_land, testBit_fullMask,
    Nat.testBit_shiftLeft, Nat.testBit_land, testBit_fieldMask, testBit_windowAt,
    testBit_windowAt]
  rcases Nat.lt_or_ge j 50 with hj | hj
  · have h1 : 10 + j < 60 := by omega
    have h2 : ¬ (50 ≤ j) := by omega
    have h4 : (10 + j) % 10 = j % 10 := by omega
    have h5 : j < 60 := by omega
    simp [h1, h2, h4, h5]
    rw [show y + ((j : Int) / 10 + 1) = y + 1 + (j : Int) / 10 by ring]
  · rcases Nat.lt_or_ge j 60 with hj2 | hj2
    · have h1 : ¬ (10 + j < 60) := by omega
      have h2 : 50 ≤ j := hj
      have h3 : j - 50 < 10 := by omega
      have h5 : j - 50 = j % 10 := by omega
      have h7 : j % 10 < 10 := by omega
      simp [h1, h2, h3, h5, hj2, h7]
      rw [show y + (6 : Int) = y + 1 + (j : Int) / 10 by omega]
    · have h1 : ¬ (10 + j < 60) := by omega
      have h3 : ¬ (j - 50 < 10) := by omega
      have h8 : ¬ (j < 60) := by omega
      simp [h1, h3, h8]

theorem lt_two_pow_of_high_bits_false {n k : Nat} (h : ∀ i, k ≤ i → n.testBit i = false) :
    n < 2 ^ k := by
  have heq : n % 2 ^ k = n := by
    apply Nat.eq_of_testBit_eq
    intro i
    rw [Nat.testBit_mod_two_pow]
    rcases Nat.lt_or_ge i k with hi | hi
    · simp [hi]
    · simp [h i hi, show ¬ i < k by omega]
  calc n = n % 2 ^ k := heq.symm
    _ < 2 ^ k := Nat.mod_lt _ (pow_pos (by omega) k)

/-- Every set bit of a well-formed orientation mask sits inside its
bounding box (restated without the i < 60 guard, using the size bound). -/
theorem tileWF_bit {t : tile} {d : Fin 4} (hWF : tileWF t) {i : Nat}
    (hbit : (t.compactAt d).testBit i = true) :
    i < 60 ∧ nibHi (t.minAt d) ≤ ((i / 10 : Nat) : Int) ∧
      ((i / 10 : Nat) : Int) ≤ nibHi (t.maxAt d) ∧
      nibLo (t.minAt d) ≤ ((i % 10 : Nat) : Int) ∧
      ((i % 10 : Nat) : Int) ≤ nibLo (t.maxAt d) := by
  obtain ⟨_, _, _, _, hlt, hbox, _⟩ := hWF d
  have hi60 : i < 60 := by
    by_contra hge
    have : (t.compactAt d).testBit i = false :=
      Nat.testBit_lt_two_pow (lt_of_lt_of_le hlt (Nat.pow_le_pow_right (by omega) (by omega)))
    simp [this] at hbit
  exact ⟨hi60, (hbox i hi60 hbit).1, (hbox i hi60 hbit).2.1, (hbox i hi60 hbit).2.2.1,
    (hbox i hi60 hbit).2.2.2⟩

/-- The x-shifted mask of a well-formed tile at an in-bounds x keeps every
bit below 2^60 (so no uint64 truncation occurs). -/
theorem tileMove_lt {t : tile} {d : Fin 4} {x : Int} (hWF : tileWF t)
    (hx2 : x + nibLo (t.maxAt d) ≤ 9) :
    tileMove (t.compactAt d) x < 2 ^ 60 ∧
      (0 ≤ x → t.compactAt d <<< x.toNat < 2 ^ 60) := by
  have hmaxlo := nibLo_range (t.maxAt d)
  have hshl : 0 ≤ x → t.compactAt d <<< x.toNat < 2 ^ 60 := by
    intro hx
    apply lt_two_pow_of_high_bits_false
    intro i hi
    rw [Nat.testBit_shiftLeft]
    have hxval : ((x.toNat : Nat) : Int) = x := Int.toNat_of_nonneg hx
    have hxi : x.toNat ≤ i := by omega
    simp only [hxi, decide_eq_true_eq, decide_eq_true, Bool.true_and]
    by_contra hb
    simp only [Bool.not_eq_false] at hb
    obtain ⟨h60, _, _, _, hcmax⟩ := tileWF_bit hWF hb
    have hdecomp : i - x.toNat = 10 * ((i - x.toNat) / 10) + (i - x.toNat) % 10 := by omega
    have hq : (i - x.toNat) / 10 ≤ 5 := by omega
    omega
  refine ⟨?_, hshl⟩
  unfold tileMove
  split
  · rename_i hx
    have h1 := hshl hx
    unfold u64
    rw [Nat.mod_eq_of_lt (lt_of_lt_of_le h1 (by norm_num))]
    exact h1
  · have hle : t.compactAt d >>> (-x).toNat ≤ t.compactAt d := by
      rw [Nat.shiftRight_eq_div_pow]
      exact Nat.div_le_self _ _
    exact lt_of_le_of_lt hle (hWF d).2.2.2.2.1

theorem u64_mul_left (a b : Nat) : u64 (u64 a * b) = u64 (a * b) := by
  unfold u64
  conv_lhs => rw [Nat.mul_mod]
  conv_rhs => rw [Nat.mul_mod]
  rw [Nat.mod_mod_of_dvd _ (dvd_refl _)]

/-- Incrementing the shift of an in-box tile: the one-column left move of
the already shifted mask equals the mask shifted by x + 1. -/
theorem tileMove_step_right {t : tile} {d : Fin 4} {x : Int} (hWF : tileWF t)
    (hx1 : 0 ≤ x + nibLo (t.minAt d)) :
    tileMove (tileMove (t.compactAt d) x) 1 = tileMove (t.compactAt d) (x + 1) := by
  rcases le_or_lt 0 x with hx | hx
  · unfold tileMove
    rw [if_pos hx, if_pos (show (0 : Int) ≤ 1 by omega),
      if_pos (show (0 : Int) ≤ x + 1 by omega)]
    rw [show ((1 : Int)).toNat = 1 from rfl, show (x + 1).toNat = x.toNat + 1 by omega]
    rw [Nat.shiftLeft_eq (u64 _) 1, Nat.shiftLeft_eq _ (x.toNat + 1),
      Nat.shiftLeft_eq _ x.toNat, u64_mul_left]
    congr 1
    ring
  · have hkx : (((-x).toNat : Nat) : Int) = -x := by omega
    have hk : 1 ≤ (-x).toNat := by omega
    have hbitlow : (t.compactAt d).testBit ((-x).toNat - 1) = false := by
      by_contra hb
      simp only [Bool.not_eq_false] at hb
      obtain ⟨h60, _, _, hcmin, _⟩ := tileWF_bit hWF hb
      have hmin8 : nibLo (t.minAt d) < 8 := (nibLo_range _).2
      have hmod : ((-x).toNat - 1) % 10 = (-x).toNat - 1 := by omega
      omega
    have hstep : (t.compactAt d >>> (-x).toNat) <<< 1 = t.compactAt d >>> ((-x).toNat - 1) := by
      apply Nat.eq_of_testBit_eq
      intro j
      rw [Nat.testBit_shiftLeft, Nat.testBit_shiftRight, Nat.testBit_shiftRight]
      rcases Nat.eq_zero_or_pos j with hj | hj
      · subst hj
        simp [show (-x).toNat - 1 + 0 = (-x).toNat - 1 by omega, hbitlow]
      · simp only [show 1 ≤ j by omega, decide_eq_true_eq, Bool.true_and]
        rw [show (-x).toNat + (j - 1) = (-x).toNat - 1 + j by omega]
        simp
    have hsz : (t.compactAt d >>> (-x).toNat) <<< 1 < 2 ^ 64 := by
      rw [hstep]
      have hle : t.compactAt d >>> ((-x).toNat - 1) ≤ t.compactAt d := by
        rw [Nat.shiftRight_eq_div_pow]
        exact Nat.div_le_self _ _
      exact lt_of_le_of_lt hle (lt_of_lt_of_le (hWF d).2.2.2.2.1 (by norm_num))
    have hlhs : tileMove (tileMove (t.compactAt d) x) 1
        = t.compactAt d >>> ((-x).toNat - 1) := by
      unfold tileMove
      rw [if_neg (show ¬ (0 : Int) ≤ x by omega), if_pos (show (0 : Int) ≤ 1 by omega),
        show ((1 : Int)).toNat = 1 from rfl]
      unfold u64
      rw [Nat.mod_eq_of_lt hsz, hstep]
    rw [hlhs]
    rcases lt_or_le (x + 1) 0 with hx1' | hx1'
    · unfold tileMove
      rw [if_neg (show ¬ (0 : Int) ≤ x + 1 by omega)]
      congr 1
      omega
    · have hx0 : x + 1 = 0 := by omega
      unfold tileMove
      rw [if_pos hx1', show (x + 1).toNat = 0 by omega, show (-x).toNat - 1 = 0 by omega]
      rw [Nat.shiftRight_zero, Nat.shiftLeft_zero]
      unfold u64
      exact (Nat.mod_eq_of_lt
        (lt_of_lt_of_le (hWF d).2.2.2.2.1 (by norm_num))).symm

/-- Decrementing the shift: the one-column right move of the shifted mask
equals the mask shifted by x - 1. -/
theorem tileMove_step_left {t : tile} {d : Fin 4} {x : Int} (hWF : tileWF t)
    (hx2 : x + nibLo (t.maxAt d) ≤ 9) :
    tileMove (tileMove (t.compactAt d) x) (-1) = tileMove (t.compactAt d) (x - 1) := by
  rcases le_or_lt 1 x with hx | hx
  · have hlt := (tileMove_lt hWF hx2).2 (by omega)
    have hlt2 := (tileMove_lt hWF (show (x - 1) + nibLo (t.maxAt d) ≤ 9 by omega)).2 (by omega)
    have hxt : 1 ≤ x.toNat := by omega
    unfold tileMove
    rw [if_pos (show (0 : Int) ≤ x by omega), if_neg (show ¬ (0 : Int) ≤ -1 by omega),
      if_pos (show (0 : Int) ≤ x - 1 by omega), show ((-(-1) : Int)).toNat = 1 from rfl]
    unfold u64
    rw [Nat.mod_eq_of_lt (lt_of_lt_of_le hlt (by norm_num)),
      Nat.mod_eq_of_lt (lt_of_lt_of_le hlt2 (by norm_num))]
    apply Nat.eq_of_testBit_eq
    intro j
    rw [Nat.testBit_shiftRight, Nat.testBit_shiftLeft, Nat.testBit_shiftLeft]
    rcases Nat.lt_or_ge j (x.toNat - 1) with hj | hj
    · simp only [show ¬ x.toNat ≤ 1 + j by omega, show ¬ (x - 1).toNat ≤ j by omega,
        decide_eq_false_iff_not, Bool.false_and, decide_eq_true_eq]
      simp
    · simp only [show x.toNat ≤ 1 + j by omega, show (x - 1).toNat ≤ j by omega,
        decide_eq_true_eq, Bool.true_and, decide_eq_true]
      rw [show 1 + j - x.toNat = j - (x - 1).toNat by omega]
  · rcases eq_or_lt_of_le (show x ≤ 0 by omega) with hx0 | hxneg
    · have hctr : tileMove (t.compactAt d) x = t.compactAt d := by
        unfold tileMove
        rw [if_pos (show (0 : Int) ≤ x by omega), show x.toNat = 0 by omega,
          Nat.shiftLeft_zero]
        exact Nat.mod_eq_of_lt (lt_of_lt_of_le (hWF d).2.2.2.2.1 (by norm_num))
      rw [hctr]
      unfold tileMove
      rw [if_neg (show ¬ (0 : Int) ≤ -1 by omega), if_neg (show ¬ (0 : Int) ≤ x - 1 by omega)]
      congr 1
      omega
    · unfold tileMove
      rw [if_neg (show ¬ (0 : Int) ≤ x by omega), if_neg (show ¬ (0 : Int) ≤ -1 by omega),
        if_neg (show ¬ (0 : Int) ≤ x - 1 by omega), show ((-(-1) : Int)).toNat = 1 from rfl]
      rw [← Nat.shiftRight_add]
      congr 1
      omega

/-- Below the floor, a well-formed tile's shifted mask always intersects
the true window: the pixel on the bottom bounding-box row meets a solid
row. -/
theorem floor_collide {f : field} {t : tile} {d : Fin 4} {x y : Int} (hWF : tileWF t)
    (hx1 : 0 ≤ x + nibLo (t.minAt d)) (hx2 : x + nibLo (t.maxAt d) ≤ 9)
    (hy : y + nibHi (t.minAt d) < 0) :
    collide (windowAt f y) (tileMove (t.compactAt d) x) = true := by
  obtain ⟨hminx0, hminmax, hminy0, _, hlt, _, hex⟩ := hWF d
  obtain ⟨c, hc10, hcbit⟩ := hex
  set b := (nibHi (t.minAt d)).toNat * 10 + c with hbdef
  obtain ⟨hb60, hq1, hq2, hc1, hc2⟩ := tileWF_bit hWF hcbit
  have hbq : b / 10 = (nibHi (t.minAt d)).toNat := by omega
  have hbr : b % 10 = c := by omega
  have hcx0 : 0 ≤ (c : Int) + x := by omega
  have hcx9 : (c : Int) + x ≤ 9 := by omega
  set j := ((b : Int) + x).toNat with hjdef
  have hjval : (j : Int) = (b : Int) + x := by omega
  have hj60 : j < 60 := by omega
  have hjq : j / 10 = (nibHi (t.minAt d)).toNat := by omega
  have hjr : (j % 10 : Int) = (c : Int) + x := by omega
  have htb : (tileMove (t.compactAt d) x).testBit j = true := by
    unfold tileMove
    split
    · rename_i hx
      rw [testBit_u64, Nat.testBit_shiftLeft]
      have h1 : j < 64 := by omega
      have h2 : x.toNat ≤ j := by omega
      have h3 : j - x.toNat = b := by omega
      simp [h1, h2, h3, hcbit]
    · rename_i hx
      rw [Nat.testBit_shiftRight]
      have h3 : (-x).toNat + j = b := by omega
      rw [h3, hcbit]
  have hwb : (windowAt f y).testBit j = true := by
    rw [testBit_windowAt]
    have hrow : y + ((j / 10 : Nat) : Int) < 0 := by
      rw [hjq]; omega
    unfold field.compactRowAt
    rw [if_pos hrow]
    rw [testBit_solidRow]
    simp [hj60, show j % 10 < 10 by omega]
  unfold collide
  have : (windowAt f y &&& tileMove (t.compactAt d) x) ≠ 0 := by
    intro h0
    have := Nat.testBit_land (windowAt f y) (tileMove (t.compactAt d) x) j
    rw [h0, Nat.zero_testBit, htb, hwb] at this
    simp at this
  simpa using this

/-- A window-consistent valid path finder sits at or above the floor:
its bottom bounding-box row is at a nonnegative field row. -/
theorem pfdGood_y_min {f : field} {t : tile} {pfd : tilePathFinder} (hWF : tileWF t)
    (hGood : pfdGood f t pfd) :
    0 ≤ pfd.state.y + nibHi (t.minAt pfd.state.dir) := by
  obtain ⟨htyp, hwin, hval⟩ := hGood
  obtain ⟨hx1, hx2, _, hcol⟩ := isValidB_eq_true_iff.mp hval
  by_contra hneg
  have := @floor_collide f t pfd.state.dir pfd.state.x pfd.state.y hWF hx1 (by omega)
    (by omega : pfd.state.y + nibHi (t.minAt pfd.state.dir) < 0)
  rw [← hwin] at this
  rw [hcol] at this
  cases this

/-- Invariant of the rightward move walk: in-bounds start position and no
collision are preserved, so the returned column is again in bounds and
collision free. -/
theorem moveRight_inv {t : tile} {d : Fin 4} (hWF : tileWF t) (cur : Nat) (s : Nat) :
    ∀ x : Int, 0 ≤ x + nibLo (t.minAt d) → x + nibLo (t.maxAt d) ≤ 9 →
      collide cur (tileMove (t.compactAt d) x) = false →
      0 ≤ moveRight cur (nibLo (t.maxAt d)) x (tileMove (t.compactAt d) x) s
            + nibLo (t.minAt d) ∧
        moveRight cur (nibLo (t.maxAt d)) x (tileMove (t.compactAt d) x) s
            + nibLo (t.maxAt d) ≤ 9 ∧
        collide cur (tileMove (t.compactAt d)
          (moveRight cur (nibLo (t.maxAt d)) x (tileMove (t.compactAt d) x) s)) = false := by
  have hminr := nibLo_range (t.minAt d)
  have hmaxr := nibLo_range (t.maxAt d)
  induction s with
  | zero =>
    intro x h1 h2 h3
    exact ⟨h1, h2, h3⟩
  | succ s ih =>
    intro x h1 h2 h3
    simp only [moveRight]
    split
    · rename_i hcond
      have hi8a : i8 (x + 1) = x + 1 := i8_eq_self (by omega) (by omega)
      rw [hi8a, tileMove_step_right hWF h1]
      split
      · rename_i hcol
        have hi8b : i8 (x + 1 - 1) = x := by
          rw [show x + 1 - 1 = x by ring]
          exact i8_eq_self (by omega) (by omega)
        rw [hi8b]
        exact ⟨h1, h2, h3⟩
      · rename_i hcol
        exact ih (x + 1) (by omega) (by omega) (by simpa using hcol)
    · exact ⟨h1, h2, h3⟩

/-- Invariant of the leftward move walk. -/
theorem moveLeft_inv {t : tile} {d : Fin 4} (hWF : tileWF t) (cur : Nat) (s : Nat) :
    ∀ x : Int, 0 ≤ x + nibLo (t.minAt d) → x + nibLo (t.maxAt d) ≤ 9 →
      collide cur (tileMove (t.compactAt d) x) = false →
      0 ≤ moveLeft cur (nibLo (t.minAt d)) x (tileMove (t.compactAt d) x) s
            + nibLo (t.minAt d) ∧
        moveLeft cur (nibLo (t.minAt d)) x (tileMove (t.compactAt d) x) s
            + nibLo (t.maxAt d) ≤ 9 ∧
        collide cur (tileMove (t.compactAt d)
          (moveLeft cur (nibLo (t.minAt d)) x (tileMove (t.compactAt d) x) s)) = false := by
  have hminr := nibLo_range (t.minAt d)
  have hmaxr := nibLo_range (t.maxAt d)
  induction s with
  | zero =>
    intro x h1 h2 h3
    exact ⟨h1, h2, h3⟩
  | succ s ih =>
    intro x h1 h2 h3
    simp only [moveLeft]
    split
    · rename_i hcond
      have hi8a : i8 (x - 1) = x - 1 := i8_eq_self (by omega) (by omega)
      rw [hi8a, tileMove_step_left hWF h2]
      split
      · rename_i hcol
        have hi8b : i8 (x - 1 + 1) = x := by
          rw [show x - 1 + 1 = x by ring]
          exact i8_eq_self (by omega) (by omega)
        rw [hi8b]
        exact ⟨h1, h2, h3⟩
      · rename_i hcol
        exact ih (x - 1) (by omega) (by omega) (by simpa using hcol)
    · exact ⟨h1, h2, h3⟩

/-- Invariant of the drop walk: the cached window tracks the true window,
the committed position never collides, and the piece never passes the
floor. -/
theorem dropLoop_inv {f : field} {t : tile} {d : Fin 4} {x : Int} (hWF : tileWF t)
    (hx1 : 0 ≤ x + nibLo (t.minAt d)) (hx2 : x + nibLo (t.maxAt d) ≤ 9) (s : Nat) :
    ∀ (cur : Nat) (y : Int), cur = windowAt f y →
      collide cur (tileMove (t.compactAt d) x) = false →
      0 ≤ y + nibHi (t.minAt d) → y ≤ 127 →
      (dropLoop f (tileMove (t.compactAt d) x) cur y s).1 =
          windowAt f (dropLoop f (tileMove (t.compactAt d) x) cur y s).2.1 ∧
        collide (dropLoop f (tileMove (t.compactAt d) x) cur y s).1
          (tileMove (t.compactAt d) x) = false ∧
        0 ≤ (dropLoop f (tileMove (t.compactAt d) x) cur y s).2.1 + nibHi (t.minAt d) ∧
        (dropLoop f (tileMove (t.compactAt d) x) cur y s).2.1 ≤ 127 := by
  have hminr := nibHi_range (t.minAt d)
  induction s with
  | zero =>
    intro cur y hcur hcol hy1 hy2
    exact ⟨hcur, hcol, hy1, hy2⟩
  | succ s ih =>
    intro cur y hcur hcol hy1 hy2
    subst hcur
    simp only [dropLoop]
    rw [fieldDown_windowAt]
    split
    · rename_i hcand
      exact ⟨rfl, hcol, hy1, hy2⟩
    · rename_i hcand
      have hcand' : collide (windowAt f (y - 1)) (tileMove (t.compactAt d) x) = false := by
        simpa using hcand
      have hfloor : 0 ≤ (y - 1) + nibHi (t.minAt d) := by
        by_contra hneg
        have := @floor_collide f t d x (y - 1) hWF hx1 hx2
          (show y - 1 + nibHi (t.minAt d) < 0 by omega)
        rw [hcand'] at this
        cases this
      have hi8a : i8 (y - 1) = y - 1 := i8_eq_self (by omega) (by omega)
      rw [hi8a]
      exact ih (windowAt f (y - 1)) (y - 1) rfl hcand' hfloor (by omega)

/-- With fuel equal to the distance, the upward re-synthesis loop raises
the window base exactly to the target (when the target is above). -/
theorem shiftUpGo_spec (f : field) (target : Int) :
    ∀ (s : Nat) (cur : Nat) (y : Int), cur = windowAt f y → -128 ≤ y → target ≤ 127 →
      s = (target - y).toNat →
      shiftUpGo f target cur y s = (windowAt f (max y target), max y target) := by
  intro s
  induction s with
  | zero =>
    intro cur y hcur hy ht hs
    have hyt : target ≤ y := by omega
    simp only [shiftUpGo]
    rw [hcur, max_eq_left hyt]
  | succ s ih =>
    intro cur y hcur hy ht hs
    have hyt : y < target := by omega
    subst hcur
    simp only [shiftUpGo]
    rw [if_pos hyt, fieldUp_windowAt, i8_eq_self (by omega) (by omega)]
    rw [ih (windowAt f (y + 1)) (y + 1) rfl (by omega) ht (by omega)]
    rw [max_eq_right (by omega : y ≤ target), max_eq_right (by omega : y + 1 ≤ target)]

/-- With fuel equal to the distance, the downward re-synthesis loop lowers
the window base exactly to the target (when the target is below). -/
theorem shiftDownGo_spec (f : field) (target : Int) :
    ∀ (s : Nat) (cur : Nat) (y : Int), cur = windowAt f y → y ≤ 127 → -128 ≤ target →
      s = (y - target).toNat →
      shiftDownGo f target cur y s = (windowAt f (min y target), min y target) := by
  intro s
  induction s with
  | zero =>
    intro cur y hcur hy ht hs
    have hyt : y ≤ target := by omega
    simp only [shiftDownGo]
    rw [hcur, min_eq_left hyt]
  | succ s ih =>
    intro cur y hcur hy ht hs
    have hyt : target < y := by omega
    subst hcur
    simp only [shiftDownGo]
    rw [if_pos hyt, fieldDown_windowAt, i8_eq_self (by omega) (by omega)]
    rw [ih (windowAt f (y - 1)) (y - 1) rfl (by omega) ht (by omega)]
    rw [min_eq_right (by omega : target ≤ y), min_eq_right (by omega : target ≤ y - 1)]

/-- The two re-synthesis loops in sequence land on the target row with the
true window there. -/
theorem rotShift_spec {f : field} {cur : Nat} {y target : Int} (hcur : cur = windowAt f y)
    (hy1 : -128 ≤ y) (hy2 : y ≤ 127) (ht1 : -128 ≤ target) (ht2 : target ≤ 127) :
    rotShift f cur y target = (windowAt f target, target) := by
  unfold rotShift
  rw [shiftUpGo_spec f target ((target - y).toNat) cur y hcur hy1 ht2 rfl]
  rw [shiftDownGo_spec f target ((max y target - target).toNat) (windowAt f (max y target))
    (max y target) rfl (by omega) ht1 (by omega)]
  rw [min_eq_right (le_max_right y target)]

/-- The kick walk of field::rotate agrees with the specification-level
first-valid-kick search, for any carried candidate whose window is
consistent. -/
theorem rotKick_eq {f : field} {t : tile} {st : tileState} {targetDir : Fin 4}
    (entries : List Nat) :
    ∀ r : tilePathFinder, r.typ = some t → r.current = windowAt f r.state.y →
      -128 ≤ r.state.y → r.state.y ≤ 127 →
      rotKickLoop f t st targetDir entries r = .ok (firstKick f t st targetDir entries) := by
  induction entries with
  | nil => intro r _ _ _ _; rfl
  | cons v rest ih =>
    intro r hT hW hy1 hy2
    simp only [rotKickLoop, firstKick]
    split
    · rfl
    · rename_i hv
      rw [rotShift_spec hW hy1 hy2 (i8_range _).1 (i8_range _).2]
      simp only [kickCandidate]
      split
      · rename_i hval
        rw [hT]
      · rename_i hval
        exact ih _ hT rfl (i8_range _).1 (i8_range _).2

/-- field::rotate computes exactly the specification-level rotation result
(unkicked target first, then the kick table in order, else failure). -/
theorem rotate_eq_spec {f : field} {t : tile} {pfd : tilePathFinder} {targetDir : Fin 4}
    (hT : pfd.typ = some t) (hW : pfd.current = windowAt f pfd.state.y)
    (hSt : stateOk pfd.state) (hA : f.assertLegitFails pfd = false) :
    field.rotate f pfd targetDir = .ok (rotateSpecFn f t pfd.state targetDir) := by
  obtain ⟨hsx1, hsx2, hsy1, hsy2⟩ := hSt
  unfold field.rotate rotateSpecFn
  rw [hA, hT]
  simp only [Bool.false_eq_true, if_false]
  rw [← hW]
  split
  · rename_i hval
    rfl
  · rename_i hval
    exact rotKick_eq _ _ rfl (by simpa using hW) (by simpa using hsy1) (by simpa using hsy2)

/-- A version stamp of 0 or the current field version passes assertLegit. -/
theorem assertLegit_ok {f : field} {pfd : tilePathFinder}
    (hV : pfd.version = 0 ∨ pfd.version = f.version) :
    f.assertLegitFails pfd = false := by
  unfold field.assertLegitFails
  rcases hV with h | h <;> simp [h]

/-- A successful first kick yields a candidate that is window-consistent
and valid against the field. -/
theorem firstKick_good {f : field} {t : tile} {st : tileState} {targetDir : Fin 4} :
    ∀ (entries : List Nat) (r : tilePathFinder),
      firstKick f t st targetDir entries = (true, r) → pfdGood f t r := by
  intro entries
  induction entries with
  | nil =>
    intro r h
    simp only [firstKick] at h
    cases h
  | cons v rest ih =>
    intro r h
    simp only [firstKick] at h
    split at h
    · cases h
    · split at h
      · rename_i hval
        cases h
        exact ⟨rfl, rfl, hval⟩
      · exact ih r h

/-- C1: starting from a tile path finder whose position is valid against
the field (bounding box in bounds, cached window equal to the field's
true packed window and not intersecting it), every path finder returned
with success by field::move, field::drop or field::rotate is again valid
in the same sense: bounding box within columns 0..9 and above the floor,
piece mask not bitwise-intersecting the field occupancy at its
position. -/
theorem c1_field_ops_preserve_validity (f : field) (t : tile) (pfd : tilePathFinder)
    (hWF : tileWF t) (hSt : stateOk pfd.state) (hGood : pfdGood f t pfd) :
    (∀ (n : Int) (r : tilePathFinder), field.move f pfd n = .ok (true, r) → pfdGood f t r) ∧
    (∀ (n : Nat) (r : tilePathFinder), field.drop f pfd n = .ok (true, r) → pfdGood f t r) ∧
    (∀ (d2 : Fin 4) (r : tilePathFinder), field.rotate f pfd d2 = .ok (true, r) →
      pfdGood f t r) := by
  have hymin := pfdGood_y_min hWF hGood
  obtain ⟨hT, hW, hval⟩ := hGood
  obtain ⟨h1, h2, h3, h4⟩ := isValidB_eq_true_iff.mp hval
  have hminmax : nibHi (t.minAt pfd.state.dir) ≤ nibHi (t.maxAt pfd.state.dir) :=
    (hWF pfd.state.dir).2.2.2.1
  refine ⟨?_, ?_, ?_⟩
  · intro n r h
    unfold field.move at h
    rw [hT] at h
    by_cases hA : f.assertLegitFails pfd = true
    · rw [if_pos hA] at h; cases h
    · rw [if_neg hA] at h
      simp only [] at h
      rcases lt_trichotomy 0 n with hn | hn | hn
      · rw [if_pos hn] at h
        have hres := moveRight_inv hWF pfd.current n.toNat pfd.state.x h1 (by omega) h4
        split at h
        · cases h
        · rw [Except.ok.injEq, Prod.mk.injEq] at h
          obtain ⟨-, hr⟩ := h
          subst hr
          refine ⟨rfl, hW, ?_⟩
          rw [isValidB_eq_true_iff]
          dsimp only
          exact ⟨hres.1, by have := hres.2.1; omega, h3, hres.2.2⟩
      · rw [if_neg (by omega : ¬ 0 < n), if_neg (by omega : ¬ n < 0)] at h
        simp at h
      · rw [if_neg (by omega : ¬ 0 < n), if_pos hn] at h
        have hres := moveLeft_inv hWF pfd.current (-n).toNat pfd.state.x h1 (by omega) h4
        split at h
        · cases h
        · rw [Except.ok.injEq, Prod.mk.injEq] at h
          obtain ⟨-, hr⟩ := h
          subst hr
          refine ⟨rfl, hW, ?_⟩
          rw [isValidB_eq_true_iff]
          dsimp only
          exact ⟨hres.1, by have := hres.2.1; omega, h3, hres.2.2⟩
  · intro n r h
    unfold field.drop at h
    rw [hT] at h
    by_cases hA : f.assertLegitFails pfd = true
    · rw [if_pos hA] at h; cases h
    · rw [if_neg hA] at h
      simp only [] at h
      have hinv := @dropLoop_inv f t pfd.state.dir pfd.state.x hWF h1 (by omega) n
        pfd.current pfd.state.y hW h4 hymin hSt.2.2.2
      split at h
      · cases h
      · rw [Except.ok.injEq, Prod.mk.injEq] at h
        obtain ⟨-, hr⟩ := h
        subst hr
        refine ⟨rfl, hinv.1, ?_⟩
        rw [isValidB_eq_true_iff]
        dsimp only
        exact ⟨h1, h2, by have := hinv.2.2.1; omega, hinv.2.1⟩
  · intro d2 r h
    by_cases hA : f.assertLegitFails pfd = true
    · unfold field.rotate at h
      rw [if_pos hA] at h; cases h
    · rw [rotate_eq_spec hT hW ⟨hSt.1, hSt.2.1, hSt.2.2.1, hSt.2.2.2⟩ (by simpa using hA)] at h
      rw [Except.ok.injEq] at h
      unfold rotateSpecFn at h
      dsimp only at h
      split at h
      · rename_i hvb
        rw [Prod.mk.injEq] at h
        obtain ⟨-, hr⟩ := h
        subst hr
        exact ⟨rfl, rfl, hvb⟩
      · exact firstKick_good _ r (by rw [← h])

/-- C5: field::rotate first tests the target orientation at the unchanged
position (returning it with the wall-kick flag unset when valid), then
walks the kick table of the (source, target) pair in table order and
returns the first valid kicked candidate with the flag set, and fails
exactly when no candidate validates - i.e. it computes rotateSpecFn. -/
theorem c5_rotate_follows_kick_table (f : field) (t : tile) (pfd : tilePathFinder)
    (targetDir : Fin 4) (hT : pfd.typ = some t)
    (hW : pfd.current = windowAt f pfd.state.y) (hSt : stateOk pfd.state)
    (hV : pfd.version = 0 ∨ pfd.version = f.version) :
    field.rotate f pfd targetDir = .ok (rotateSpecFn f t pfd.state targetDir) :=
  rotate_eq_spec hT hW hSt (assertLegit_ok hV)

/-- Witness for C5 at a concrete rotation on an empty field. -/
theorem c5_witness :
    field.rotate fieldNew spawnedOne 1 = .ok (rotateSpecFn fieldNew tileOne spawnedOne.state 1) :=
  c5_rotate_follows_kick_table fieldNew tileOne spawnedOne 1 rfl (by decide) (by decide)
    (Or.inr rfl)

/-- With a passing version check and a tile present, field::drop never
throws. -/
theorem drop_not_error {f : field} {t : tile} {pfd : tilePathFinder} {n : Nat}
    (hA : f.assertLegitFails pfd = false) (hT : pfd.typ = some t) :
    ∀ e, field.drop f pfd n ≠ .error e := by
  intro e h
  unfold field.drop at h
  rw [if_neg (by simp [hA]), hT] at h
  dsimp only at h
  split at h <;> cases h

/-- The pixel placement loop only overwrites cells, so it preserves both
row-list lengths. -/
theorem placePixels_len (sx sy : Int) :
    ∀ (ps : List (Nat × Nat)) (cf : List Nat) (fr : List (List Nat)),
      (placePixels sx sy ps (cf, fr)).1.length = cf.length ∧
        (placePixels sx sy ps (cf, fr)).2.length = fr.length := by
  intro ps
  induction ps with
  | nil => intro cf fr; exact ⟨rfl, rfl⟩
  | cons p rest ih =>
    intro cf fr
    rcases p with ⟨dv, lv⟩
    simp only [placePixels]
    split
    · exact ⟨rfl, rfl⟩
    · rcases ih (cf.set (u8 (sy + nibHi lv)) ((cf.getD (u8 (sy + nibHi lv)) 0) |||
        (1 <<< u8 (sx + nibLo lv))))
        (fr.set (u8 (sy + nibHi lv)) ((fr.getD (u8 (sy + nibHi lv))
          (List.replicate 10 0)).set (u8 (sx + nibLo lv)) dv)) with ⟨ha, hb⟩
      rw [ha, hb, List.length_set, List.length_set]
      exact ⟨rfl, rfl⟩

/-- The erase loop removes exactly the rows it counts: the sum of the
remaining length and the clear counter is invariant, the two parallel
lists keep equal lengths, and the counter only grows. -/
theorem eraseLoop_spec (base : Int) :
    ∀ (s : Nat) (cf : List Nat) (fr : List (List Nat)) (j clear : Nat),
      cf.length = fr.length →
      0 ≤ base + j - clear →
      base + j + s ≤ (cf.length : Int) + clear →
      base ≤ 127 → (j : Int) + s ≤ 16 →
      (eraseLoop base cf fr j clear s).1.length + (eraseLoop base cf fr j clear s).2.2
          = cf.length + clear ∧
        (eraseLoop base cf fr j clear s).2.1.length
          = (eraseLoop base cf fr j clear s).1.length ∧
        clear ≤ (eraseLoop base cf fr j clear s).2.2 := by
  intro s
  induction s with
  | zero =>
    intro cf fr j clear hl h0 hub hb hj
    exact ⟨rfl, hl.symm, le_refl _⟩
  | succ s ih =>
    intro cf fr j clear hl h0 hub hb hj
    have hrow : (u8 ((base : Int) + j - clear) : Int) = base + j - clear :=
      u8_eq_self h0 (by omega)
    have hrowlt : u8 ((base : Int) + j - clear) < cf.length := by omega
    simp only [eraseLoop]
    split
    · have hlen1 : (cf.eraseIdx (u8 ((base : Int) + j - clear))).length = cf.length - 1 := by
        rw [List.length_eraseIdx]
        simp [hrowlt]
      have hlen2 : (fr.eraseIdx (u8 ((base : Int) + j - clear))).length = fr.length - 1 := by
        rw [List.length_eraseIdx]
        simp [show u8 ((base : Int) + j - clear) < fr.length by omega]
      have hres := ih (cf.eraseIdx (u8 ((base : Int) + j - clear)))
        (fr.eraseIdx (u8 ((base : Int) + j - clear))) (j + 1) (clear + 1)
        (by omega) (by push_cast; omega) (by push_cast; omega) hb (by push_cast; omega)
      refine ⟨by omega, hres.2.1, by omega⟩
    · have hres := ih cf fr (j + 1) clear hl (by push_cast; omega) (by push_cast; omega)
        hb (by push_cast; omega)
      exact ⟨hres.1, hres.2.1, hres.2.2⟩

/-- Length accounting of the lockApply mutation: the final height plus
the clear count equals the grown height, the two parallel row lists stay
in sync, and the version is bumped by one. -/
theorem lockApply_len {f : field} {t : tile} {st : tileState}
    (hLen : f.compactFields.length = f.fields.length)
    (hymin : 0 ≤ st.y + nibHi (t.minAt st.dir))
    (hy127 : st.y ≤ 127)
    (hminy0 : 0 ≤ nibHi (t.minAt st.dir))
    (hminmaxy : nibHi (t.minAt st.dir) ≤ nibHi (t.maxAt st.dir))
    (hmaxy8 : nibHi (t.maxAt st.dir) < 8) :
    ((lockApply f t st).1.fields.length : Int) + (lockApply f t st).2
        = max (f.fields.length : Int) (st.y + nibHi (t.maxAt st.dir) + 1) ∧
      (lockApply f t st).1.compactFields.length = (lockApply f t st).1.fields.length ∧
      (lockApply f t st).1.version = f.version + 1 := by
  have hu8 : (u8 (nibHi (t.minAt st.dir)) : Int) = nibHi (t.minAt st.dir) :=
    u8_eq_self (by omega) (by omega)
  have hpl : (lockPlaced f t st).1.length = f.compactFields.length + grownRows f t st ∧
      (lockPlaced f t st).2.length = f.fields.length + grownRows f t st := by
    unfold lockPlaced
    rcases placePixels_len st.x st.y (t.pixAt st.dir)
      (f.compactFields ++ List.replicate (grownRows f t st) 0)
      (f.fields ++ List.replicate (grownRows f t st) (List.replicate 10 0)) with ⟨ha, hb⟩
    rw [List.length_append, List.length_replicate] at ha
    rw [List.length_append, List.length_replicate] at hb
    exact ⟨ha, hb⟩
  have hgr : (grownRows f t st : Int) = (st.y + nibHi (t.maxAt st.dir) + 1
      - f.fields.length).toNat := by rfl
  have hel := eraseLoop_spec st.y
    ((nibHi (t.maxAt st.dir) + 1 - (u8 (nibHi (t.minAt st.dir)) : Int)).toNat)
    (lockPlaced f t st).1 (lockPlaced f t st).2
    (u8 (nibHi (t.minAt st.dir))) 0
    (by omega) (by omega) (by push_cast; omega) hy127 (by omega)
  have heq : lockErased f t st = eraseLoop st.y (lockPlaced f t st).1 (lockPlaced f t st).2
      (u8 (nibHi (t.minAt st.dir))) 0
      ((nibHi (t.maxAt st.dir) + 1 - (u8 (nibHi (t.minAt st.dir)) : Int)).toNat) := rfl
  rw [← heq] at hel
  unfold lockApply
  push_cast at hel ⊢
  refine ⟨by omega, by omega, rfl⟩

/-- C2: field::lock returns true exactly when the path finder's position
is valid and a further one-row drop fails; a false return leaves the
field (occupancy rows, color rows and version) completely unchanged; a
true return bumps the version by exactly 1 and the output parameter
receives the number of rows removed (grown height minus final height). -/
theorem c2_lock_contract (f : field) (t : tile) (pfd : tilePathFinder)
    (hWF : tileWF t) (hSt : stateOk pfd.state) (hT : pfd.typ = some t)
    (hW : pfd.current = windowAt f pfd.state.y)
    (hV : pfd.version = 0 ∨ pfd.version = f.version)
    (hLen : f.compactFields.length = f.fields.length) :
    (∃ b f2 c, field.lock f pfd = .ok (b, f2, c)) ∧
    (∀ f2 c, field.lock f pfd = .ok (false, f2, c) → f2 = f ∧ c = 0 ∧
      ¬(isValidB t pfd.state pfd.current = true ∧
        (field.drop f pfd 1).map Prod.fst = .ok false)) ∧
    (∀ f2 c, field.lock f pfd = .ok (true, f2, c) →
      (isValidB t pfd.state pfd.current = true ∧
        (field.drop f pfd 1).map Prod.fst = .ok false) ∧
      f2.version = f.version + 1 ∧
      (f2.fields.length : Int) + c =
        max (f.fields.length : Int) (pfd.state.y + nibHi (t.maxAt pfd.state.dir) + 1) ∧
      f2.compactFields.length = f2.fields.length) := by
  have hA := assertLegit_ok hV
  by_cases hvB : isValidB t pfd.state pfd.current = true
  · cases hd : field.drop f pfd 1 with
    | error e => exact absurd hd (drop_not_error hA hT e)
    | ok br =>
      rcases br with ⟨b, rr⟩
      cases b
      · -- drop failed: the piece is resting, lock succeeds
        have hvGood : pfdGood f t pfd := ⟨hT, hW, hvB⟩
        have hymin := pfdGood_y_min hWF hvGood
        have hWFd := hWF pfd.state.dir
        have happ := @lockApply_len f t pfd.state hLen hymin hSt.2.2.2
          hWFd.2.2.1 hWFd.2.2.2.1 (nibHi_range (t.maxAt pfd.state.dir)).2
        have hEq : field.lock f pfd
            = .ok (true, (lockApply f t pfd.state).1, (lockApply f t pfd.state).2) := by
          unfold field.lock
          rw [if_neg (by simp [hA]), hT]
          dsimp only
          rw [if_neg (by simp [hvB]), hd]
        refine ⟨⟨_, _, _, hEq⟩, ?_, ?_⟩
        · intro f2 c h
          rw [hEq] at h
          simp at h
        · intro f2 c h
          rw [hEq] at h
          rw [Except.ok.injEq, Prod.mk.injEq] at h
          obtain ⟨-, h⟩ := h
          rw [Prod.mk.injEq] at h
          obtain ⟨hf2, hc⟩ := h
          subst hf2
          subst hc
          exact ⟨⟨hvB, rfl⟩, happ.2.2, happ.1, happ.2.1⟩
      · -- drop succeeded: the piece is not resting, lock is a no-op
        have hEq : field.lock f pfd = .ok (false, f, 0) := by
          unfold field.lock
          rw [if_neg (by simp [hA]), hT]
          dsimp only
          rw [if_neg (by simp [hvB]), hd]
        refine ⟨⟨_, _, _, hEq⟩, ?_, ?_⟩
        · intro f2 c h
          rw [hEq] at h
          rw [Except.ok.injEq, Prod.mk.injEq] at h
          obtain ⟨-, h⟩ := h
          rw [Prod.mk.injEq] at h
          refine ⟨h.1.symm, h.2.symm, ?_⟩
          rintro ⟨-, hdf⟩
          rw [show Except.map Prod.fst (Except.ok (true, rr)) =
            (Except.ok true : Except fieldErr Bool) from rfl] at hdf
          cases hdf
        · intro f2 c h
          rw [hEq] at h
          simp at h
  · -- invalid position: lock is a no-op
    have hEq : field.lock f pfd = .ok (false, f, 0) := by
      unfold field.lock
      rw [if_neg (by simp [hA]), hT]
      dsimp only
      rw [if_pos (by simp [hvB])]
    refine ⟨⟨_, _, _, hEq⟩, ?_, ?_⟩
    · intro f2 c h
      rw [hEq] at h
      rw [Except.ok.injEq, Prod.mk.injEq] at h
      obtain ⟨-, h⟩ := h
      rw [Prod.mk.injEq] at h
      exact ⟨h.1.symm, h.2.symm, fun hc => hvB hc.1⟩
    · intro f2 c h
      rw [hEq] at h
      simp at h

/-- Witness for C1 at a concrete one-column left move on an empty
field. -/
theorem c1_witness :
    pfdGood fieldNew tileOne
      { typ := some tileOne, state := { dir := 0, x := 1, y := 17 }, version := 1,
        current := 0, previousWallKick := false } :=
  (c1_field_ops_preserve_validity fieldNew tileOne spawnedOne (by decide) (by decide)
    (by decide)).1 (-1) _ (by decide)

/-- Witness for C2 at a concrete resting lock on an empty field. -/
theorem c2_witness :
    (isValidB tileOne restingOne.state restingOne.current = true ∧
      (field.drop fieldNew restingOne 1).map Prod.fst = .ok false) ∧
    (lockApply fieldNew tileOne restingOne.state).1.version = fieldNew.version + 1 ∧
    ((lockApply fieldNew tileOne restingOne.state).1.fields.length : Int) +
        (lockApply fieldNew tileOne restingOne.state).2 =
      max (fieldNew.fields.length : Int)
        (restingOne.state.y + nibHi (tileOne.maxAt restingOne.state.dir) + 1) ∧
    (lockApply fieldNew tileOne restingOne.state).1.compactFields.length =
      (lockApply fieldNew tileOne restingOne.state).1.fields.length :=
  (c2_lock_contract fieldNew tileOne restingOne (by decide) (by decide) rfl (by decide)
    (Or.inl rfl) rfl).2.2 _ _ (by decide)

/-- A two-way if whose branches are both ok never equals an error. -/
theorem ite_ok_ne_err {ε α : Type} {c : Prop} [Decidable c] (a b : α) (e : ε) :
    (if c then Except.ok a else Except.ok b) ≠ (Except.error e : Except ε α) := by
  intro h
  split at h <;> cases h

/-- A false result out of the shared false-or-commit epilogue carries
exactly the null value of the false branch. -/
theorem false_branch_null {ε α : Type} {c : Prop} [Decidable c] {p r nl : α}
    (h : (if c then Except.ok (false, nl) else Except.ok (true, p))
        = (Except.ok (false, r) : Except ε (Bool × α))) : r = nl := by
  split at h
  · rw [Except.ok.injEq, Prod.mk.injEq] at h
    exact h.2.symm
  · rw [Except.ok.injEq, Prod.mk.injEq] at h
    cases h.1

/-- The kick walk never throws. -/
theorem rotKick_no_error {f : field} {t : tile} {st : tileState} {targetDir : Fin 4} :
    ∀ (entries : List Nat) (r : tilePathFinder) (e : fieldErr),
      rotKickLoop f t st targetDir entries r ≠ .error e := by
  intro entries
  induction entries with
  | nil => intro r e h; cases h
  | cons v rest ih =>
    intro r e h
    simp only [rotKickLoop] at h
    split at h
    · cases h
    · split at h
      · cases h
      · exact ih _ e h

/-- A false result of the kick walk carries the null path finder. -/
theorem rotKick_false_null {f : field} {t : tile} {st : tileState} {targetDir : Fin 4} :
    ∀ (entries : List Nat) (r r2 : tilePathFinder),
      rotKickLoop f t st targetDir entries r = .ok (false, r2) → r2 = nullPathFinder := by
  intro entries
  induction entries with
  | nil =>
    intro r r2 h
    simp only [rotKickLoop] at h
    rw [Except.ok.injEq, Prod.mk.injEq] at h
    exact h.2.symm
  | cons v rest ih =>
    intro r r2 h
    simp only [rotKickLoop] at h
    split at h
    · rw [Except.ok.injEq, Prod.mk.injEq] at h
      exact h.2.symm
    · split at h
      · rw [Except.ok.injEq, Prod.mk.injEq] at h
        cases h.1
      · exact ih _ r2 h

/-- C8: a path finder with a nonzero version stamp differing from the
field's current version makes move, drop, rotate and lock abort with the
version-mismatch exception (never a false return), while a version stamp
of 0 is never rejected by the version check. -/
theorem c8_stale_version_fatal (f : field) (pfd : tilePathFinder) :
    (pfd.version ≠ 0 → pfd.version ≠ f.version →
      (∀ n : Int, field.move f pfd n = .error .versionMismatch) ∧
      (∀ n : Nat, field.drop f pfd n = .error .versionMismatch) ∧
      (∀ d : Fin 4, field.rotate f pfd d = .error .versionMismatch) ∧
      field.lock f pfd = .error .versionMismatch) ∧
    (pfd.version = 0 →
      (∀ n : Int, field.move f pfd n ≠ .error .versionMismatch) ∧
      (∀ n : Nat, field.drop f pfd n ≠ .error .versionMismatch) ∧
      (∀ d : Fin 4, field.rotate f pfd d ≠ .error .versionMismatch) ∧
      field.lock f pfd ≠ .error .versionMismatch) := by
  constructor
  · intro h0 hv
    have hFail : f.assertLegitFails pfd = true := by
      unfold field.assertLegitFails
      simp [h0, hv]
    refine ⟨fun n => ?_, fun n => ?_, fun d => ?_, ?_⟩ <;>
      first
      | (unfold field.move; rw [if_pos hFail])
      | (unfold field.drop; rw [if_pos hFail])
      | (unfold field.rotate; rw [if_pos hFail])
      | (unfold field.lock; rw [if_pos hFail])
  · intro h0
    have hA : f.assertLegitFails pfd = false := assertLegit_ok (Or.inl h0)
    refine ⟨fun n h => ?_, fun n h => ?_, fun d h => ?_, fun h => ?_⟩
    · unfold field.move at h
      rw [if_neg (by simp [hA])] at h
      cases hTyp : pfd.typ with
      | none => rw [hTyp] at h; cases h
      | some t =>
        rw [hTyp] at h
        dsimp only at h
        exact ite_ok_ne_err _ _ _ h
    · unfold field.drop at h
      rw [if_neg (by simp [hA])] at h
      cases hTyp : pfd.typ with
      | none => rw [hTyp] at h; cases h
      | some t =>
        rw [hTyp] at h
        dsimp only at h
        exact ite_ok_ne_err _ _ _ h
    · unfold field.rotate at h
      rw [if_neg (by simp [hA])] at h
      cases hTyp : pfd.typ with
      | none => rw [hTyp] at h; cases h
      | some t =>
        rw [hTyp] at h
        dsimp only at h
        split at h
        · cases h
        · exact rotKick_no_error _ _ _ h
    · unfold field.lock at h
      rw [if_neg (by simp [hA])] at h
      cases hTyp : pfd.typ with
      | none => rw [hTyp] at h; cases h
      | some t =>
        rw [hTyp] at h
        dsimp only at h
        split at h
        · cases h
        · split at h
          · rename_i e heq
            exact drop_not_error hA hTyp e heq
          · cases h
          · cases h

/-- Witness for C8: a stale stamp is rejected, a zero stamp passes. -/
theorem c8_witness :
    field.move fieldNew { nullPathFinder with version := 7 } 1 = .error .versionMismatch ∧
    field.drop fieldNew (mkPathFinder tileOne) 1 ≠ .error .versionMismatch :=
  ⟨((c8_stale_version_fatal fieldNew { nullPathFinder with version := 7 }).1
      (by decide) (by decide)).1 1,
   ((c8_stale_version_fatal fieldNew (mkPathFinder tileOne)).2 rfl).2.1 1⟩

/-- C9: for a negative row index the dense accessor rowAt returns the
all-zero row (the unsigned conversion of y makes the size check fire
first, so the solid branch is unreachable), while compactRowAt reports
the same rows as solid. -/
theorem c9_rowAt_negative_empty (f : field) (y : Int) (solidCell : Nat)
    (hy : y < 0) (hy2 : -(2 ^ 31) ≤ y)
    (hlen : (f.compactFields.length : Int) < 2 ^ 63) :
    f.rowAt y solidCell = List.replicate 10 0 ∧ f.compactRowAt y = solidRow := by
  constructor
  · have hcond : (f.compactFields.length : Int) ≤ (((y % (2 ^ 64)).toNat : Nat) : Int) := by
      have h64 : (2 : Int) ^ 64 = 18446744073709551616 := by norm_num
      have h63 : (2 : Int) ^ 63 = 9223372036854775808 := by norm_num
      have h31 : (2 : Int) ^ 31 = 2147483648 := by norm_num
      rw [h64]
      rw [h63] at hlen
      rw [h31] at hy2
      omega
    unfold field.rowAt
    rw [if_pos hcond]
  · unfold field.compactRowAt
    rw [if_pos hy]

/-- Witness for C9 on a one-row field at y = -1. -/
theorem c9_witness :
    (fieldNew.grow (List.replicate 10 3)).rowAt (-1) 1 = List.replicate 10 0 ∧
      (fieldNew.grow (List.replicate 10 3)).compactRowAt (-1) = solidRow :=
  c9_rowAt_negative_empty (fieldNew.grow (List.replicate 10 3)) (-1) 1 (by decide)
    (by norm_num) (by decide)

/-- C4 counterexample: a failed field::spawn hands back an output path
finder that is not in the null state (it keeps its tile type, state and
freshly built window). -/
theorem c4_counterexample :
    (field.spawn blockedField (mkPathFinder tileOne)).map
        (fun r => (r.1, r.2.typ.isSome)) = .ok (false, true) := by
  decide

/-- C4 amended: field::move, field::drop and field::rotate (the
operations whose output parameter starts from the null state) leave the
output path finder in the null/default state whenever they return false;
field::spawn, whose parameter is in-out, does not. -/
theorem c4_false_output_null (f : field) (pfd : tilePathFinder) :
    (∀ (n : Int) (r : tilePathFinder), field.move f pfd n = .ok (false, r) →
      r = nullPathFinder) ∧
    (∀ (n : Nat) (r : tilePathFinder), field.drop f pfd n = .ok (false, r) →
      r = nullPathFinder) ∧
    (∀ (d : Fin 4) (r : tilePathFinder), field.rotate f pfd d = .ok (false, r) →
      r = nullPathFinder) := by
  refine ⟨fun n r h => ?_, fun n r h => ?_, fun d r h => ?_⟩
  · unfold field.move at h
    split at h
    · cases h
    · split at h
      · cases h
      · dsimp only at h
        exact false_branch_null h
  · unfold field.drop at h
    split at h
    · cases h
    · split at h
      · cases h
      · dsimp only at h
        exact false_branch_null h
  · unfold field.rotate at h
    split at h
    · cases h
    · split at h
      · cases h
      · dsimp only at h
        split at h
        · rw [Except.ok.injEq, Prod.mk.injEq] at h
          cases h.1
        · exact rotKick_false_null _ _ r h

/-- Witness for the amended C4 at a zero-step move. -/
theorem c4_witness :
    field.move fieldNew spawnedOne 0 = .ok (false, nullPathFinder) ∧
      nullPathFinder = nullPathFinder :=
  ⟨by decide, (c4_false_output_null fieldNew spawnedOne).1 0 nullPathFinder (by decide)⟩

/-- C7: in every tetromino rotation table, the kick list of (i, j) and
the kick list of (j, i) have the same populated length and are exact
componentwise negations. -/
theorem c7_kick_tables_negate (typ : tetromino) :
    ∀ i < 4, ∀ j < 4,
      entryCount (createTetrominoRotation typ) i j
          = entryCount (createTetrominoRotation typ) j i ∧
        ∀ k < entryCount (createTetrominoRotation typ) i j,
          nibLo (tread (createTetrominoRotation typ) i j k)
              = -(nibLo (tread (createTetrominoRotation typ) j i k)) ∧
            nibHi (tread (createTetrominoRotation typ) i j k)
              = -(nibHi (tread (createTetrominoRotation typ) j i k)) := by
  cases typ <;> decide

/-- field::spawn on a type-only path finder always returns, and the
returned path finder keeps the tile type; a successful one is stamped
with the field version. -/
theorem spawn_mk_cases (f : field) (t : tile) :
    ∃ b pfd1, f.spawn (mkPathFinder t) = .ok (b, pfd1) ∧ pfd1.typ = some t ∧
      (b = true → pfd1.version = f.version) := by
  unfold field.spawn mkPathFinder
  dsimp only
  split
  · exact ⟨true, _, rfl, rfl, fun _ => rfl⟩
  · exact ⟨false, _, rfl, rfl, fun h => by cases h⟩

/-- playground::spawnTile never throws, does not touch the hold slot or
the swap flag, and leaves the spawned type in the current path finder
(also on the top-out failure path). -/
theorem spawnTile_ok (p : playground) (typ : tile) :
    ∃ q, p.spawnTile typ = .ok q ∧ q.swap = p.swap ∧ q.swapEnabled = p.swapEnabled ∧
      q.current.typ = some typ := by
  obtain ⟨b, pfd1, hsp, htyp, hver⟩ := spawn_mk_cases p.f typ
  unfold playground.spawnTile
  dsimp only
  rw [hsp]
  cases b with
  | false => exact ⟨_, rfl, rfl, rfl, rfl⟩
  | true =>
    dsimp only
    have hA : p.f.assertLegitFails pfd1 = false := by
      unfold field.assertLegitFails
      rw [hver rfl]
      simp
    cases hdrop : p.f.drop pfd1 20 with
    | error e => exact absurd hdrop (drop_not_error hA htyp e)
    | ok pr =>
      obtain ⟨b2, r⟩ := pr
      cases b2 with
      | false => exact ⟨_, rfl, rfl, rfl, htyp⟩
      | true => exact ⟨_, rfl, rfl, rfl, htyp⟩

/-- playground::spawnNextTile never throws, does not touch the hold slot
or the swap flag, and when the preview head holds a tile that tile
becomes the current piece. -/
theorem spawnNextTile_ok (p : playground) :
    ∃ q, p.spawnNextTile = .ok q ∧ q.swap = p.swap ∧ q.swapEnabled = p.swapEnabled ∧
      (∀ ct, p.preview.getD p.previewCursor none = some ct → q.current.typ = some ct) := by
  unfold playground.spawnNextTile
  cases hh : p.preview.getD p.previewCursor none with
  | none =>
    refine ⟨_, rfl, rfl, rfl, ?_⟩
    intro ct hct
    cases hct
  | some ct0 =>
    dsimp only
    obtain ⟨q, hq, hqs, hqe, hqt⟩ := spawnTile_ok _ ct0
    refine ⟨q, hq, hqs, hqe, ?_⟩
    intro ct hct
    injection hct with hct'
    rw [← hct']
    exact hqt

/-- C3 counterexample: swapping out of an empty hold slot leaves the swap
capability enabled (swapTile stores previous == nullptr into swapEnabled,
so only a swap out of an occupied hold slot disables it). -/
theorem c3_counterexample :
    (pgOne.swapTile).map (fun r => (r.1, r.2.swapEnabled)) = .ok (true, true) := by
  decide

/-- C3 amended: after a successful swapTile the held slot receives the
current tile type and the swap capability is disabled exactly when the
hold slot was previously occupied (it stays enabled after a swap out of
an empty hold slot); with an empty hold slot the next preview piece is
spawned as the current piece, with an occupied hold slot the previously
held piece is respawned. -/
theorem c3_swap_disabled_only_when_hold_occupied (p : playground) (t : tile)
    (hs : p.state = .inGame) (he : p.swapEnabled = true) (ht : p.current.typ = some t) :
    ∃ q, p.swapTile = .ok (true, q) ∧ q.swap = some t ∧
      q.swapEnabled = p.swap.isNone ∧
      (∀ prev, p.swap = some prev → q.current.typ = some prev) ∧
      (p.swap = none → ∀ ct, p.preview.getD p.previewCursor none = some ct →
        q.current.typ = some ct) := by
  unfold playground.swapTile
  rw [if_neg (by simp [hs]), if_neg (by simp [he]), ht]
  dsimp only
  cases hswap : p.swap with
  | none =>
    dsimp only
    obtain ⟨q, hq, hqs, hqe, hqt⟩ := spawnNextTile_ok _
    rw [hq]
    refine ⟨q, rfl, hqs, hqe, ?_, ?_⟩
    · intro prev hp
      cases hp
    · intro hnone ct hct
      exact hqt ct hct
  | some prev0 =>
    dsimp only
    obtain ⟨q, hq, hqs, hqe, hqt⟩ := spawnTile_ok _ prev0
    rw [hq]
    refine ⟨q, rfl, hqs, hqe, ?_, ?_⟩
    · intro prev hp
      injection hp with hp'
      rw [← hp']
      exact hqt
    · intro hnone
      cases hnone

/-- Witness for the amended C3 on a concrete in-game playground. -/
theorem c3_witness :
    ∃ q, pgOne.swapTile = .ok (true, q) ∧ q.swap = some tileOne ∧
      q.swapEnabled = pgOne.swap.isNone ∧
      (∀ prev, pgOne.swap = some prev → q.current.typ = some prev) ∧
      (pgOne.swap = none → ∀ ct, pgOne.preview.getD pgOne.previewCursor none = some ct →
        q.current.typ = some ct) :=
  c3_swap_disabled_only_when_hold_occupied pgOne tileOne rfl rfl rfl

/-- The value generate returns is the series cell under the pointer. -/
theorem generate_fst {α σ : Type} [Inhabited α] (O : shuffler α σ) (p : tilePermutator α σ) :
    (p.generate O).1 = p.series.getD p.pointer default := by
  unfold tilePermutator.generate
  dsimp only
  split <;> rfl

/-- The state generate leaves behind: reshuffle at a completed pass,
plain pointer advance otherwise. -/
theorem generate_snd {α σ : Type} [Inhabited α] (O : shuffler α σ) (p : tilePermutator α σ) :
    (p.generate O).2 =
      if p.numTiles ≤ p.pointer + 1 then tilePermutator.permutate O { p with pointer := 0 }
      else { p with pointer := p.pointer + 1 } := by
  unfold tilePermutator.generate
  dsimp only
  split <;> rfl

/-- Under the running invariant, generate returns an element of the
working set. -/
theorem generate_mem {α σ : Type} [Inhabited α] (O : shuffler α σ) (ws : List α)
    (p : tilePermutator α σ) (h : permInvP ws p) : (p.generate O).1 ∈ ws := by
  obtain ⟨hn, hptr, hperm⟩ := h
  have hlen : p.series.length = ws.length := hperm.length_eq
  have hlt : p.pointer < p.series.length := by omega
  rw [generate_fst, List.getD_eq_getElem p.series default hlt]
  exact hperm.mem_iff.mp (List.getElem_mem hlt)

/-- generate preserves the running invariant. -/
theorem generate_inv {α σ : Type} [Inhabited α] (O : shuffler α σ) (ws : List α)
    (hsh : ∀ (s : σ) (l : List α), (O.shuffle s l).1.Perm l)
    (_hne : 1 ≤ ws.length)
    (p : tilePermutator α σ) (h : permInvP ws p) : permInvP ws (p.generate O).2 := by
  obtain ⟨hn, hptr, hperm⟩ := h
  rw [generate_snd]
  split
  · unfold tilePermutator.permutate
    dsimp only
    exact ⟨hn, by dsimp only; omega, (hsh _ _).trans hperm⟩
  · exact ⟨hn, by dsimp only; omega, hperm⟩

/-- The state after n + 1 draws is the state after n draws from the
first post-draw state. -/
theorem drawN_snd {α σ : Type} [Inhabited α] (O : shuffler α σ) (n : Nat)
    (p : tilePermutator α σ) :
    (drawN O p (n + 1)).2 = (drawN O (p.generate O).2 n).2 := rfl

/-- drawN preserves the running invariant. -/
theorem drawN_inv {α σ : Type} [Inhabited α] (O : shuffler α σ) (ws : List α)
    (hsh : ∀ (s : σ) (l : List α), (O.shuffle s l).1.Perm l)
    (hne : 1 ≤ ws.length) :
    ∀ (n : Nat) (p : tilePermutator α σ), permInvP ws p → permInvP ws (drawN O p n).2 := by
  intro n
  induction n with
  | zero => intro p h; exact h
  | succ n ih =>
    intro p h
    rw [drawN_snd]
    exact ih _ (generate_inv O ws hsh hne p h)

/-- drawN yields exactly n values. -/
theorem drawN_len {α σ : Type} [Inhabited α] (O : shuffler α σ) :
    ∀ (n : Nat) (p : tilePermutator α σ), (drawN O p n).1.length = n := by
  intro n
  induction n with
  | zero => intro p; rfl
  | succ n ih =>
    intro p
    show ((p.generate O).1 :: (drawN O (p.generate O).2 n).1).length = n + 1
    rw [List.length_cons, ih]

/-- drawN splits over a sum of draw counts. -/
theorem drawN_add {α σ : Type} [Inhabited α] (O : shuffler α σ) :
    ∀ (a b : Nat) (p : tilePermutator α σ),
      (drawN O p (a + b)).1 = (drawN O p a).1 ++ (drawN O (drawN O p a).2 b).1 ∧
        (drawN O p (a + b)).2 = (drawN O (drawN O p a).2 b).2 := by
  intro a
  induction a with
  | zero =>
    intro b p
    rw [Nat.zero_add]
    exact ⟨rfl, rfl⟩
  | succ a ih =>
    intro b p
    rw [Nat.succ_add]
    have h1 : (drawN O p ((a + b) + 1)).1
        = (p.generate O).1 :: (drawN O (p.generate O).2 (a + b)).1 := rfl
    have h2 : (drawN O p ((a + b) + 1)).2 = (drawN O (p.generate O).2 (a + b)).2 := rfl
    have h3 : (drawN O p (a + 1)).1
        = (p.generate O).1 :: (drawN O (p.generate O).2 a).1 := rfl
    have h4 : (drawN O p (a + 1)).2 = (drawN O (p.generate O).2 a).2 := rfl
    rw [h1, h2, h3, h4, (ih b _).1, (ih b _).2]
    exact ⟨rfl, rfl⟩

/-- A full pass from pointer position: the next numTiles draws replay the
series tail and end in a reshuffled pointer-0 state. -/
theorem drawN_pass {α σ : Type} [Inhabited α] (O : shuffler α σ) :
    ∀ (m : Nat) (p : tilePermutator α σ),
      p.pointer + (m + 1) = p.numTiles → p.numTiles = p.series.length →
      (drawN O p (m + 1)).1 = p.series.drop p.pointer ∧
        (drawN O p (m + 1)).2 = tilePermutator.permutate O { p with pointer := 0 } := by
  intro m
  induction m with
  | zero =>
    intro p h1 h2
    have hlt : p.pointer < p.series.length := by omega
    constructor
    · show [(p.generate O).1] = p.series.drop p.pointer
      rw [generate_fst, List.getD_eq_getElem p.series default hlt,
        List.drop_eq_getElem_cons hlt]
      congr 1
      exact (List.drop_eq_nil_of_le (by omega)).symm
    · show (p.generate O).2 = _
      rw [generate_snd, if_pos (by omega)]
  | succ m ih =>
    intro p h1 h2
    have hgen2 : (p.generate O).2 = { p with pointer := p.pointer + 1 } := by
      rw [generate_snd, if_neg (by omega)]
    have hlt : p.pointer < p.series.length := by omega
    have ihh := ih { p with pointer := p.pointer + 1 } (by dsimp only; omega)
      (by dsimp only; exact h2)
    constructor
    · have h3 : (drawN O p (m + 1 + 1)).1
          = (p.generate O).1 :: (drawN O (p.generate O).2 (m + 1)).1 := rfl
      rw [h3, hgen2, ihh.1]
      dsimp only
      rw [generate_fst, List.getD_eq_getElem p.series default hlt]
      exact (List.drop_eq_getElem_cons hlt).symm
    · have h4 : (drawN O p (m + 1 + 1)).2 = (drawN O (p.generate O).2 (m + 1)).2 := rfl
      rw [h4, hgen2, ihh.2]

/-- From a reshuffle boundary, the next full pass of draws is a
permutation of the working set and ends at a reshuffle boundary. -/
theorem permWindow {α σ : Type} [Inhabited α] (O : shuffler α σ) (tiles : List α)
    (hsh : ∀ (s : σ) (l : List α), (O.shuffle s l).1.Perm l)
    (hne : 1 ≤ tiles.length) (p : tilePermutator α σ) (h : permBoundary tiles p) :
    ((drawN O p tiles.length).1).Perm tiles ∧
      permBoundary tiles (drawN O p tiles.length).2 := by
  obtain ⟨hn, hptr, hperm⟩ := h
  obtain ⟨m, hm⟩ : ∃ m, tiles.length = m + 1 := ⟨tiles.length - 1, by omega⟩
  have hlen : p.series.length = tiles.length := hperm.length_eq
  have hpass := drawN_pass O m p (by omega) (by omega)
  rw [hm]
  constructor
  · rw [hpass.1, hptr, List.drop_zero]
    exact hperm
  · rw [hpass.2]
    unfold tilePermutator.permutate
    dsimp only
    exact ⟨hn, rfl, (hsh _ _).trans hperm⟩

/-- Whole passes keep the permutator at a reshuffle boundary. -/
theorem bagIter {α σ : Type} [Inhabited α] (O : shuffler α σ) (tiles : List α)
    (hsh : ∀ (s : σ) (l : List α), (O.shuffle s l).1.Perm l)
    (hne : 1 ≤ tiles.length) :
    ∀ (k : Nat) (p : tilePermutator α σ), permBoundary tiles p →
      permBoundary tiles (drawN O p (k * tiles.length)).2 := by
  intro k
  induction k with
  | zero =>
    intro p h
    rw [Nat.zero_mul]
    exact h
  | succ k ih =>
    intro p h
    have hadd : (k + 1) * tiles.length = k * tiles.length + tiles.length := by ring
    rw [hadd, (drawN_add O (k * tiles.length) tiles.length p).2]
    exact (permWindow O tiles hsh hne _ (ih p h)).2

/-- C6: over a working set of distinct tiles, the window of draws
kN + 1 .. kN + N of a freshly constructed tilePermutator (a full pass
aligned to a reshuffle boundary) is a permutation of the working set:
each tile appears exactly once, provided the underlying std::shuffle
permutes the series (its documented contract). -/
theorem c6_bag_window_multiset {α σ : Type} [Inhabited α] [DecidableEq α]
    (O : shuffler α σ) (tiles : List α) (s0 : σ) (k : Nat)
    (hsh : ∀ (s : σ) (l : List α), (O.shuffle s l).1.Perm l)
    (hnd : tiles.Nodup) (hne : 1 ≤ tiles.length) :
    (((drawN O (mkPermutator O tiles s0) (k * tiles.length + tiles.length)).1).drop
        (k * tiles.length)).Perm tiles ∧
    ∀ a ∈ tiles,
      (((drawN O (mkPermutator O tiles s0) (k * tiles.length + tiles.length)).1).drop
          (k * tiles.length)).count a = 1 := by
  have hb0 : permBoundary tiles (mkPermutator O tiles s0) := by
    unfold permBoundary mkPermutator tilePermutator.permutate
    dsimp only
    exact ⟨rfl, rfl, hsh _ _⟩
  have hbk := bagIter O tiles hsh hne k _ hb0
  have hwin := permWindow O tiles hsh hne _ hbk
  have hdrop :
      ((drawN O (mkPermutator O tiles s0) (k * tiles.length + tiles.length)).1).drop
          (k * tiles.length)
        = (drawN O (drawN O (mkPermutator O tiles s0) (k * tiles.length)).2
            tiles.length).1 := by
    rw [(drawN_add O (k * tiles.length) tiles.length (mkPermutator O tiles s0)).1]
    have hl : (drawN O (mkPermutator O tiles s0) (k * tiles.length)).1.length
        = k * tiles.length := drawN_len O _ _
    have hd2 := List.drop_left (drawN O (mkPermutator O tiles s0) (k * tiles.length)).1
      (drawN O (drawN O (mkPermutator O tiles s0) (k * tiles.length)).2 tiles.length).1
    rw [hl] at hd2
    exact hd2
  refine ⟨?_, ?_⟩
  · rw [hdrop]
    exact hwin.1
  · intro a ha
    rw [hdrop, (hwin.1).count_eq a]
    exact List.count_eq_one_of_mem hnd ha

/-- Witness for C6 with the identity shuffler over three distinct
values, at the second window (k = 1). -/
theorem c6_witness :
    (((drawN (idShuffler Nat) (mkPermutator (idShuffler Nat) [1, 2, 3] ())
          (1 * [1, 2, 3].length + [1, 2, 3].length)).1).drop
        (1 * [1, 2, 3].length)).Perm [1, 2, 3] ∧
    ∀ a ∈ [1, 2, 3],
      (((drawN (idShuffler Nat) (mkPermutator (idShuffler Nat) [1, 2, 3] ())
            (1 * [1, 2, 3].length + [1, 2, 3].length)).1).drop
          (1 * [1, 2, 3].length)).count a = 1 :=
  c6_bag_window_multiset (idShuffler Nat) [1, 2, 3] () 1
    (fun s l => List.Perm.refl l) (by decide) (by decide)

/-- Transfer of the liveness invariant along a frame of untouched
fields. -/
theorem pgAlive_of_frame {p q : playground}
    (hg : q.generator = p.generator) (hp : q.preview = p.preview)
    (hc : q.previewCursor = p.previewCursor) (hn : q.numPreviews = p.numPreviews)
    (hs : q.state = p.state) (h : pgAlive p) : pgAlive q := by
  rw [pgAlive, hg, hp, hc, hn, hs]
  exact h

/-- playground::tileMove only replaces the current and shadow path
finders. -/
theorem tileMove_frame (p : playground) (pfd : tilePathFinder) (q : playground)
    (h : p.tileMove pfd = .ok q) :
    q.generator = p.generator ∧ q.preview = p.preview ∧ q.previewCursor = p.previewCursor ∧
      q.numPreviews = p.numPreviews ∧ q.state = p.state := by
  unfold playground.tileMove at h
  cases hd : p.f.drop pfd 20 with
  | error e => rw [hd] at h; cases h
  | ok pr =>
    rw [hd] at h
    obtain ⟨b, r⟩ := pr
    cases b <;>
      (dsimp only at h; injection h with h2; rw [← h2]; exact ⟨rfl, rfl, rfl, rfl, rfl⟩)

/-- playground::spawnTile does not touch the generator, the preview ring
or the cursor, and either keeps the state or tops out. -/
theorem spawnTile_frame (p : playground) (typ : tile) (q : playground)
    (h : p.spawnTile typ = .ok q) :
    q.generator = p.generator ∧ q.preview = p.preview ∧ q.previewCursor = p.previewCursor ∧
      q.numPreviews = p.numPreviews ∧ (q.state = p.state ∨ q.state = .topOut) := by
  unfold playground.spawnTile at h
  dsimp only at h
  cases hsp : p.f.spawn (mkPathFinder typ) with
  | error e => rw [hsp] at h; cases h
  | ok pr =>
    rw [hsp] at h
    obtain ⟨b, pfd1⟩ := pr
    cases b with
    | false =>
      dsimp only at h
      injection h with h2
      rw [← h2]
      exact ⟨rfl, rfl, rfl, rfl, Or.inr rfl⟩
    | true =>
      dsimp only at h
      cases hd : p.f.drop pfd1 20 with
      | error e => rw [hd] at h; cases h
      | ok pr2 =>
        rw [hd] at h
        obtain ⟨b2, r2⟩ := pr2
        cases b2 <;>
          (dsimp only at h; injection h with h2; rw [← h2];
            exact ⟨rfl, rfl, rfl, rfl, Or.inl rfl⟩)

/-- playground::spawnTile preserves the liveness invariant. -/
theorem spawnTile_alive (p : playground) (typ : tile) (q : playground)
    (hA : pgAlive p) (h : p.spawnTile typ = .ok q) : pgAlive q := by
  obtain ⟨hfg, hfp, hfc, hfn, hfs⟩ := spawnTile_frame p typ q h
  obtain ⟨hg, hp, hl, hc, hs⟩ := hA
  refine ⟨by rw [hfg]; exact hg, by rw [hfp]; exact hp, by rw [hfp, hfn]; exact hl,
    by rw [hfc, hfn]; exact hc, ?_⟩
  rcases hfs with h1 | h1
  · rw [h1]; exact hs
  · rw [h1]; intro hcontr; cases hcontr

/-- Under the liveness invariant, playground::spawnNextTile succeeds in
popping a real tile (the exhausted branch is unreachable) and preserves
the invariant: the refilled slot comes from the always-productive
generator. -/
theorem spawnNextTile_alive (p : playground) (q : playground)
    (hA : pgAlive p) (h : p.spawnNextTile = .ok q) : pgAlive q := by
  obtain ⟨hg, hp, hl, hc, hs⟩ := hA
  have hhead : p.preview.getD p.previewCursor none ∈ p.preview := by
    rw [List.getD_eq_getElem p.preview none (by omega : p.previewCursor < p.preview.length)]
    exact List.getElem_mem _
  have hsome := hp _ hhead
  cases hh : p.preview.getD p.previewCursor none with
  | none => rw [hh] at hsome; simp at hsome
  | some ct =>
    unfold playground.spawnNextTile at h
    rw [hh] at h
    dsimp only at h
    have hprev : (if p.previewCursor = 0 then p.preview.getD (p.numPreviews - 1) none
        else p.preview.getD (p.previewCursor - 1) none).isSome = true := by
      by_cases h0 : p.previewCursor = 0
      · rw [if_pos h0]
        refine hp _ ?_
        rw [List.getD_eq_getElem p.preview none
          (by omega : p.numPreviews - 1 < p.preview.length)]
        exact List.getElem_mem _
      · rw [if_neg h0]
        refine hp _ ?_
        rw [List.getD_eq_getElem p.preview none
          (by omega : p.previewCursor - 1 < p.preview.length)]
        exact List.getElem_mem _
    obtain ⟨hfg, hfp, hfc, hfn, hfs⟩ := spawnTile_frame _ ct q h
    refine ⟨?_, ?_, ?_, ?_, ?_⟩
    · rw [hfg]
      exact hg
    · rw [hfp]
      dsimp only
      intro o ho
      rcases List.mem_or_eq_of_mem_set ho with hmem | heq
      · exact hp o hmem
      · rw [heq, if_pos hprev]
        exact hg _
    · rw [hfp, hfn]
      dsimp only
      rw [List.length_set]
      exact hl
    · rw [hfc, hfn]
      dsimp only
      split <;> omega
    · rcases hfs with h1 | h1
      · rw [h1]
        exact hs
      · rw [h1]
        intro hcontr
        cases hcontr

/-- Unwrapping the pair-projection maps pgStep puts around the Bool
returning playground entries. -/
theorem map_pair_ok {ε : Type} {b : Bool} {f : Except ε playground} {q : playground}
    (h : Except.map (fun r : Bool × playground => r.2)
        (Except.map (fun q2 => (b, q2)) f) = .ok q) : f = .ok q := by
  cases f with
  | error e => cases h
  | ok x =>
    injection h with h2
    exact congrArg Except.ok h2

/-- playground::move preserves the liveness invariant. -/
theorem pg_move_alive (p : playground) (n : Int) (b : Bool) (q : playground)
    (hA : pgAlive p) (h : p.move n = .ok (b, q)) : pgAlive q := by
  unfold playground.move at h
  split at h
  · rw [Except.ok.injEq, Prod.mk.injEq] at h
    rw [← h.2]
    exact hA
  · cases hm : p.f.move p.current n with
    | error e => rw [hm] at h; cases h
    | ok pr =>
      rw [hm] at h
      obtain ⟨bm, pfd⟩ := pr
      cases bm with
      | false =>
        dsimp only at h
        rw [Except.ok.injEq, Prod.mk.injEq] at h
        rw [← h.2]
        exact hA
      | true =>
        dsimp only at h
        cases ht : p.tileMove pfd with
        | error e => rw [ht] at h; cases h
        | ok q1 =>
          rw [ht] at h
          rw [show Except.map (fun q => (true, q)) (Except.ok q1)
              = (Except.ok (true, q1) : Except fieldErr (Bool × playground)) from rfl] at h
          rw [Except.ok.injEq, Prod.mk.injEq] at h
          obtain ⟨hfg, hfp, hfc, hfn, hfs⟩ := tileMove_frame p pfd q1 ht
          rw [← h.2]
          exact pgAlive_of_frame hfg hfp hfc hfn hfs hA

/-- playground::drop preserves the liveness invariant. -/
theorem pg_drop_alive (p : playground) (n : Nat) (b : Bool) (q : playground)
    (hA : pgAlive p) (h : p.drop n = .ok (b, q)) : pgAlive q := by
  unfold playground.drop at h
  split at h
  · rw [Except.ok.injEq, Prod.mk.injEq] at h
    rw [← h.2]
    exact hA
  · cases hm : p.f.drop p.current n with
    | error e => rw [hm] at h; cases h
    | ok pr =>
      rw [hm] at h
      obtain ⟨bm, pfd⟩ := pr
      cases bm with
      | false =>
        dsimp only at h
        rw [Except.ok.injEq, Prod.mk.injEq] at h
        rw [← h.2]
        exact hA
      | true =>
        dsimp only at h
        cases ht : p.tileMove pfd with
        | error e => rw [ht] at h; cases h
        | ok q1 =>
          rw [ht] at h
          rw [show Except.map (fun q => (true, q)) (Except.ok q1)
              = (Except.ok (true, q1) : Except fieldErr (Bool × playground)) from rfl] at h
          rw [Except.ok.injEq, Prod.mk.injEq] at h
          obtain ⟨hfg, hfp, hfc, hfn, hfs⟩ := tileMove_frame p pfd q1 ht
          rw [← h.2]
          exact pgAlive_of_frame hfg hfp hfc hfn hfs hA

/-- playground::rotate preserves the liveness invariant. -/
theorem pg_rotate_alive (p : playground) (d : Fin 4) (b : Bool) (q : playground)
    (hA : pgAlive p) (h : p.rotate d = .ok (b, q)) : pgAlive q := by
  unfold playground.rotate at h
  split at h
  · rw [Except.ok.injEq, Prod.mk.injEq] at h
    rw [← h.2]
    exact hA
  · cases hm : p.f.rotate p.current d with
    | error e => rw [hm] at h; cases h
    | ok pr =>
      rw [hm] at h
      obtain ⟨bm, pfd⟩ := pr
      cases bm with
      | false =>
        dsimp only at h
        rw [Except.ok.injEq, Prod.mk.injEq] at h
        rw [← h.2]
        exact hA
      | true =>
        dsimp only at h
        cases ht : p.tileMove pfd with
        | error e => rw [ht] at h; cases h
        | ok q1 =>
          rw [ht] at h
          rw [show Except.map (fun q => (true, q)) (Except.ok q1)
              = (Except.ok (true, q1) : Except fieldErr (Bool × playground)) from rfl] at h
          rw [Except.ok.injEq, Prod.mk.injEq] at h
          obtain ⟨hfg, hfp, hfc, hfn, hfs⟩ := tileMove_frame p pfd q1 ht
          rw [← h.2]
          exact pgAlive_of_frame hfg hfp hfc hfn hfs hA

/-- Every driver step preserves the liveness invariant. -/
theorem pgStep_alive (p : playground) (op : pgOp) (q : playground)
    (hA : pgAlive p) (h : pgStep p op = .ok q) : pgAlive q := by
  cases op with
  | start =>
    unfold pgStep playground.start at h
    dsimp only at h
    split at h
    · injection h with h2
      rw [← h2]
      exact hA
    · refine spawnNextTile_alive _ q ?_ h
      obtain ⟨hg, hp, hl, hc, hs⟩ := hA
      exact ⟨hg, hp, hl, hc, by intro hcontr; cases hcontr⟩
  | complete =>
    unfold pgStep playground.complete at h
    dsimp only at h
    injection h with h2
    split at h2
    · rw [← h2]
      exact hA
    · rw [← h2]
      obtain ⟨hg, hp, hl, hc, hs⟩ := hA
      exact ⟨hg, hp, hl, hc, by intro hcontr; cases hcontr⟩
  | move n =>
    unfold pgStep at h
    dsimp only at h
    cases hm : p.move n with
    | error e => rw [hm] at h; cases h
    | ok pr =>
      obtain ⟨b, q1⟩ := pr
      rw [hm] at h
      injection h with h2
      rw [← h2]
      exact pg_move_alive p n b q1 hA hm
  | drop n =>
    unfold pgStep at h
    dsimp only at h
    cases hm : p.drop n with
    | error e => rw [hm] at h; cases h
    | ok pr =>
      obtain ⟨b, q1⟩ := pr
      rw [hm] at h
      injection h with h2
      rw [← h2]
      exact pg_drop_alive p n b q1 hA hm
  | rotCW =>
    unfold pgStep playground.rotateCW at h
    dsimp only at h
    split at h
    · injection h with h2
      rw [← h2]
      exact hA
    · cases hm : p.rotate (Hacktile.rotateCW p.current.state.dir) with
      | error e => rw [hm] at h; cases h
      | ok pr =>
        obtain ⟨b, q1⟩ := pr
        rw [hm] at h
        injection h with h2
        rw [← h2]
        exact pg_rotate_alive p _ b q1 hA hm
  | rotCCW =>
    unfold pgStep playground.rotateCCW at h
    dsimp only at h
    split at h
    · injection h with h2
      rw [← h2]
      exact hA
    · cases hm : p.rotate (Hacktile.rotateCCW p.current.state.dir) with
      | error e => rw [hm] at h; cases h
      | ok pr =>
        obtain ⟨b, q1⟩ := pr
        rw [hm] at h
        injection h with h2
        rw [← h2]
        exact pg_rotate_alive p _ b q1 hA hm
  | turn =>
    unfold pgStep playground.halfTurn at h
    dsimp only at h
    split at h
    · injection h with h2
      rw [← h2]
      exact hA
    · cases hm : p.rotate (Hacktile.halfTurn p.current.state.dir) with
      | error e => rw [hm] at h; cases h
      | ok pr =>
        obtain ⟨b, q1⟩ := pr
        rw [hm] at h
        injection h with h2
        rw [← h2]
        exact pg_rotate_alive p _ b q1 hA hm
  | hardDrop =>
    unfold pgStep playground.hardDrop at h
    dsimp only at h
    split at h
    · injection h with h2
      rw [← h2]
      exact hA
    · cases hd : p.drop 20 with
      | error e => rw [hd] at h; cases h
      | ok pr =>
        obtain ⟨b1, p1⟩ := pr
        rw [hd] at h
        dsimp only at h
        have hA1 : pgAlive p1 := pg_drop_alive p 20 b1 p1 hA hd
        cases hcur : p1.current.typ with
        | none => rw [hcur] at h; cases h
        | some t =>
          rw [hcur] at h
          dsimp only at h
          cases hlk : p1.f.lock p1.current with
          | error e => rw [hlk] at h; cases h
          | ok triple =>
            obtain ⟨b2, f2, c2⟩ := triple
            rw [hlk] at h
            dsimp only at h
            obtain ⟨hg, hp, hl, hc, hs⟩ := hA1
            split at h
            · have hsn := map_pair_ok h
              refine spawnNextTile_alive _ q ?_ hsn
              exact ⟨hg, hp, hl, hc, hs⟩
            · injection h with h2
              rw [← h2]
              exact ⟨hg, hp, hl, hc, hs⟩
  | swapTile =>
    unfold pgStep playground.swapTile at h
    dsimp only at h
    split at h
    · injection h with h2
      rw [← h2]
      exact hA
    · split at h
      · injection h with h2
        rw [← h2]
        exact hA
      · cases hcur : p.current.typ with
        | none => rw [hcur] at h; cases h
        | some t =>
          rw [hcur] at h
          dsimp only at h
          obtain ⟨hg, hp, hl, hc, hs⟩ := hA
          cases hswap : p.swap with
          | none =>
            rw [hswap] at h
            dsimp only at h
            have hsn := map_pair_ok h
            refine spawnNextTile_alive _ q ?_ hsn
            exact ⟨hg, hp, hl, hc, hs⟩
          | some prev =>
            rw [hswap] at h
            dsimp only at h
            have hsn := map_pair_ok h
            refine spawnTile_alive _ prev q ?_ hsn
            exact ⟨hg, hp, hl, hc, hs⟩

/-- A whole driver run preserves the liveness invariant. -/
theorem runOps_alive : ∀ (ops : List pgOp) (p q : playground),
    pgAlive p → runOps p ops = .ok q → pgAlive q := by
  intro ops
  induction ops with
  | nil =>
    intro p q h hrun
    cases hrun
    exact h
  | cons op rest ih =>
    intro p q h hrun
    unfold runOps at hrun
    cases hstep : pgStep p op with
    | error e => rw [hstep] at hrun; cases hrun
    | ok p2 =>
      rw [hstep] at hrun
      exact ih p2 q (pgStep_alive p op p2 h hstep) hrun

/-- C10: a tilePermutator over a non-empty working set of non-null tiles
never produces a null tile (assuming std::shuffle permutes the series),
and a playground fed only by such a permutator can never reach the
exhausted state, whatever operations the driver issues. -/
theorem c10_permutator_never_exhausts {σ : Type} (O : shuffler (Option tile) σ)
    (ws : List (Option tile)) (s0 : σ) (numPreviews : Nat)
    (hsh : ∀ (s : σ) (l : List (Option tile)), (O.shuffle s l).1.Perm l)
    (hne : 1 ≤ ws.length) (hsome : ∀ o ∈ ws, o.isSome = true)
    (hN : 1 ≤ numPreviews) :
    (∀ n, (permStream O (mkPermutator O ws s0) n).isSome = true) ∧
    ∀ (ops : List pgOp) (q : playground),
      runOps (mkPlayground (permStream O (mkPermutator O ws s0)) numPreviews) ops = .ok q →
      q.state ≠ .exhausted := by
  have hinv0 : permInvP ws (mkPermutator O ws s0) := by
    unfold permInvP mkPermutator tilePermutator.permutate
    dsimp only
    exact ⟨rfl, by omega, hsh _ _⟩
  have hstream : ∀ n, (permStream O (mkPermutator O ws s0) n).isSome = true := by
    intro n
    have hinv := drawN_inv O ws hsh hne n (mkPermutator O ws s0) hinv0
    exact hsome _ (generate_mem O ws _ hinv)
  refine ⟨hstream, ?_⟩
  intro ops q hrun
  have halive : pgAlive (mkPlayground (permStream O (mkPermutator O ws s0)) numPreviews) := by
    unfold mkPlayground
    refine ⟨hstream, ?_, ?_, ?_, ?_⟩
    · intro o ho
      rw [List.mem_map] at ho
      obtain ⟨i, -, hio⟩ := ho
      rw [← hio]
      exact hstream i
    · rw [List.length_map, List.length_range]
    · dsimp only
      omega
    · intro hcontr
      cases hcontr
  exact (runOps_alive ops _ q halive hrun).2.2.2.2

/-- Witness for C10: the first generated tile of a singleton permutator
is present, and the empty driver run is not exhausted. -/
theorem c10_witness :
    (permStream (idShuffler (Option tile)) (mkPermutator (idShuffler (Option tile))
        [some tileOne] ()) 0).isSome = true ∧
    (mkPlayground (permStream (idShuffler (Option tile)) (mkPermutator
        (idShuffler (Option tile)) [some tileOne] ())) 1).state ≠ .exhausted :=
  ⟨(c10_permutator_never_exhausts (idShuffler (Option tile)) [some tileOne] () 1
      (fun s l => List.Perm.refl l) (by decide)
      (fun o ho => by cases ho with | head => rfl | tail _ hh => cases hh)
      (by decide)).1 0,
   (c10_permutator_never_exhausts (idShuffler (Option tile)) [some tileOne] () 1
      (fun s l => List.Perm.refl l) (by decide)
      (fun o ho => by cases ho with | head => rfl | tail _ hh => cases hh)
      (by decide)).2 [] _ rfl⟩

/-- Witness for C7 at the (0, 1) pair of the J table. -/
theorem c7_witness :
    0 < entryCount (createTetrominoRotation .J) 0 1 ∧
    entryCount (createTetrominoRotation .J) 0 1
        = entryCount (createTetrominoRotation .J) 1 0 ∧
    nibLo (tread (createTetrominoRotation .J) 0 1 0)
        = -(nibLo (tread (createTetrominoRotation .J) 1 0 0)) :=
  ⟨by decide, (c7_kick_tables_negate .J 0 (by decide) 1 (by decide)).1,
   ((c7_kick_tables_negate .J 0 (by decide) 1 (by decide)).2 0 (by decide)).1⟩

end Hacktile
